import Mathlib

/-!
# trackpad: the WebSocket session handler of `main.go`

A shallow embedding of `wsHandler` (main.go, lines 43-158) and of the package-level
variables it mutates (main.go, lines 19-24), followed by the properties of the
session protocol.

Modelling conventions.

* `float64` is modelled by `F64`: the finite values (as rationals), the two
  infinities and NaN. The operations `+`, `*`, `/` compute the exact result and round
  it to the nearest float64, ties to even, with gradual underflow and overflow to
  infinity (`F64.round`), as IEEE 754 binary64 does. The sign of a zero is not
  modelled: the handler never divides by a value that can be zero (its only divisor
  has passed the guard `> 0`) and nothing it does depends on the sign of a zero.
* Go's `int` is the 64-bit integer: sums wrap (`wrap64`). The conversion `int(f)`
  truncates toward zero when the result fits; otherwise, and for infinities and NaN,
  Go leaves the result to the implementation, which is the parameter `conv`.
* `strings.ToLower` is library code: the handler is parameterised by the folding
  function `lower`, and every general statement holds for every such function.
  `asciiLower` is the ASCII part of it, used on concrete inputs.
* `robotgo` is the host input sink. Calls that act on the host are recorded, in
  order, as a list of `HostCall`. The two queries `GetScreenSize` (once per
  connection) and `GetMousePos` (once per `move`) are inputs of the model.
* `conn.ReadMessage` followed by `json.Unmarshal` is modelled by `ReadResult`; the
  numbers of a decoded message are finite float64 values (`Message.Decoded`).
-/

namespace Trackpad

/-! ## float64 -/

/-- Two to an integer power, as a rational. -/
def pow2 (e : Int) : ℚ :=
  if 0 ≤ e then ((2 ^ e.toNat : ℕ) : ℚ) else 1 / ((2 ^ (-e).toNat : ℕ) : ℚ)

/-- Binary logarithm of a natural number, rounded down, by halving at most `fuel`
times. -/
def log2Fuel : Nat → Nat → Nat
  | 0, _ => 0
  | fuel + 1, n => if 2 ≤ n then log2Fuel fuel (n / 2) + 1 else 0

/-- The binary exponent of a positive rational: the `e` with `2^e ≤ a < 2^(e+1)`. -/
def ilog2 (a : ℚ) : Int :=
  let k : Int := (log2Fuel a.num.natAbs a.num.natAbs : Int) - (log2Fuel a.den a.den : Int)
  if pow2 k ≤ a then k else k - 1

/-- Rounding of a non-negative rational to the nearest integer, ties to even. -/
def roundHalfEven (n : ℚ) : Int :=
  if n - (Int.floor n : ℚ) < 1 / 2 then Int.floor n
  else if 1 / 2 < n - (Int.floor n : ℚ) then Int.floor n + 1
  else if Int.floor n % 2 = 0 then Int.floor n
  else Int.floor n + 1

/-- The spacing of the float64 values around a positive rational: 53 significant bits,
and the spacing of the subnormal numbers below `2^-1022`. -/
def ulp (a : ℚ) : ℚ := pow2 (max (ilog2 a) (-1022) - 52)

/-- Rounding of a positive rational to the nearest multiple of its `ulp`. -/
def roundMag (a : ℚ) : ℚ := (roundHalfEven (a / ulp a) : ℚ) * ulp a

/-- The values of a `float64`, signed zeros identified. -/
inductive F64 where
  | fin (q : ℚ)
  | posInf
  | negInf
  | nan
deriving DecidableEq

namespace F64

/-- Rounding of an exact result to float64: to nearest, ties to even, an infinity from
`2^1024` on. -/
def round (q : ℚ) : F64 :=
  if q = 0 then fin 0
  else if pow2 1024 ≤ roundMag |q| then (if 0 < q then posInf else negInf)
  else fin (if 0 < q then roundMag |q| else -roundMag |q|)

/-- The rational value of a finite float64 (0 for the others). -/
def toRat : F64 → ℚ
  | fin q => q
  | _ => 0

/-- The comparison `a < b` of Go: false when an operand is NaN. -/
def blt : F64 → F64 → Bool
  | fin a, fin b => decide (a < b)
  | fin _, posInf => true
  | negInf, fin _ => true
  | negInf, posInf => true
  | _, _ => false

instance instLT : LT F64 := ⟨fun a b => blt a b = true⟩

instance decLt (a b : F64) : Decidable (a < b) :=
  inferInstanceAs (Decidable (blt a b = true))

/-- Unary minus. -/
def neg : F64 → F64
  | fin q => fin (-q)
  | posInf => negInf
  | negInf => posInf
  | nan => nan

/-- Float64 addition. -/
def add : F64 → F64 → F64
  | nan, _ => nan
  | _, nan => nan
  | fin a, fin b => round (a + b)
  | posInf, negInf => nan
  | negInf, posInf => nan
  | posInf, _ => posInf
  | negInf, _ => negInf
  | fin _, posInf => posInf
  | fin _, negInf => negInf

/-- Float64 multiplication. -/
def mul : F64 → F64 → F64
  | nan, _ => nan
  | _, nan => nan
  | fin a, fin b => round (a * b)
  | fin a, posInf => if a = 0 then nan else if 0 < a then posInf else negInf
  | fin a, negInf => if a = 0 then nan else if 0 < a then negInf else posInf
  | posInf, fin b => if b = 0 then nan else if 0 < b then posInf else negInf
  | negInf, fin b => if b = 0 then nan else if 0 < b then negInf else posInf
  | posInf, posInf => posInf
  | posInf, negInf => negInf
  | negInf, posInf => negInf
  | negInf, negInf => posInf

/-- Float64 division (a zero divisor is taken as `+0`). -/
def div : F64 → F64 → F64
  | nan, _ => nan
  | _, nan => nan
  | fin a, fin b =>
    if b = 0 then (if a = 0 then nan else if 0 < a then posInf else negInf)
    else round (a / b)
  | fin _, posInf => fin 0
  | fin _, negInf => fin 0
  | posInf, fin b => if 0 ≤ b then posInf else negInf
  | negInf, fin b => if 0 ≤ b then negInf else posInf
  | posInf, posInf => nan
  | posInf, negInf => nan
  | negInf, posInf => nan
  | negInf, negInf => nan

instance instNeg : Neg F64 := ⟨neg⟩
instance instAdd : Add F64 := ⟨add⟩
instance instMul : Mul F64 := ⟨mul⟩
instance instDiv : Div F64 := ⟨div⟩

/-- Go's conversion `float64(n)` of an `int`. -/
def ofInt (n : Int) : F64 := round (n : ℚ)

/-- The value is a finite float64: a rational that rounding leaves as it is. -/
def Valid : F64 → Prop
  | fin q => round q = fin q
  | _ => False

instance decValid (f : F64) : Decidable (Valid f) := by
  cases f <;> unfold Valid <;> infer_instance

end F64

/-- The float64 that `json.Unmarshal` stores for a number whose decimal literal has the
value `q`: the nearest float64. -/
def json (q : ℚ) : F64 := F64.round q

/-! ## int -/

/-- Truncation toward zero. -/
def truncQ (q : ℚ) : Int := if 0 ≤ q then Int.floor q else Int.ceil q

/-- The 64-bit two's complement integer congruent to `n`. -/
def wrap64 (n : Int) : Int := (n + 2 ^ 63) % 2 ^ 64 - 2 ^ 63

/-- The integer is a value of Go's 64-bit `int`. -/
def Fits64 (n : Int) : Prop := -2 ^ 63 ≤ n ∧ n < 2 ^ 63

instance instDecidableFits64 (n : Int) : Decidable (Fits64 n) := by
  unfold Fits64
  infer_instance

/-- Go's conversion `int(f)` of a float: the fractional part is discarded when the
result fits an `int`; otherwise the result is what the implementation `conv` gives. -/
def goInt (conv : F64 → Int) : F64 → Int
  | F64.fin q =>
    if Fits64 (truncQ q) then truncQ q else wrap64 (conv (F64.fin q))
  | f => wrap64 (conv f)

/-- The conversion of x86-64: every value that does not fit gives the least `int`. -/
def convAmd64 : F64 → Int := fun _ => -2 ^ 63

/-- ASCII lower-casing: `strings.ToLower` restricted to ASCII letters. -/
def asciiLower (s : String) : String := String.mk (s.data.map Char.toLower)

/-! ## Data model -/

/-- The `Message` struct (main.go, lines 31-41); `MsgType` is the field `Type`.
Absent JSON fields keep Go's zero value. -/
structure Message where
  MsgType : String := ""
  Dx : F64 := F64.fin 0
  Dy : F64 := F64.fin 0
  Button : String := ""
  Delta : F64 := F64.fin 0
  TouchpadWidth : F64 := F64.fin 0
  TouchpadHeight : F64 := F64.fin 0
  ScreenWidth : F64 := F64.fin 0
  ScreenHeight : F64 := F64.fin 0
deriving DecidableEq

/-- What `json.Unmarshal` guarantees of a message it accepts: every number is a finite
float64 value. -/
def Message.Decoded (m : Message) : Prop :=
  m.Dx.Valid ∧ m.Dy.Valid ∧ m.Delta.Valid ∧ m.TouchpadWidth.Valid ∧
    m.TouchpadHeight.Valid ∧ m.ScreenWidth.Valid ∧ m.ScreenHeight.Valid

instance Message.decDecoded (m : Message) : Decidable m.Decoded := by
  unfold Message.Decoded
  infer_instance

/-- The calls of `robotgo` that act on the host, with their arguments. -/
inductive HostCall where
  | MoveMouseSmooth (x y : Int) (low high : F64)
  | Click (button : String)
  | Scroll (x y : Int)
  | KeyToggle (key state : String)
  | KeyTap (key : String) (modifiers : List String)
deriving DecidableEq

/-- The mutable package-level variables (main.go, lines 19-24). They belong to the
process, not to a connection. -/
structure Globals where
  threeSwipeDX : F64
  threeSwipeDY : F64
  touchpadWidth : F64
  touchpadHeight : F64
  screenWidth : Int
  screenHeight : Int
deriving DecidableEq

/-- The values of the package-level variables at process start. -/
def initGlobals : Globals :=
  { threeSwipeDX := F64.fin 0, threeSwipeDY := F64.fin 0, touchpadWidth := F64.fin 500,
    touchpadHeight := F64.fin 800, screenWidth := 0, screenHeight := 0 }

/-- The local variables of one call of `wsHandler` (main.go, lines 62-67): they
belong to one connection. -/
structure Locals where
  screenWMac : Int
  screenHMac : Int
  moveScaleX : F64
  moveScaleY : F64
  scrollScale : F64
  zoomScale : F64
deriving DecidableEq

/-- The locals as `wsHandler` sets them before its loop (main.go, lines 62-67), from
the result of `robotgo.GetScreenSize()` and the value of the `-scale` flag. -/
def sessionInit (screenW screenH : Int) (scaleFlag : F64) : Locals :=
  { screenWMac := screenW, screenHMac := screenH, moveScaleX := F64.fin 1,
    moveScaleY := F64.fin 1, scrollScale := scaleFlag, zoomScale := scaleFlag / F64.fin 2 }

/-- What a connection's handler can read and write: the process's globals and its own
locals. -/
structure State where
  g : Globals
  l : Locals
deriving DecidableEq

/-- The outcome of `conn.ReadMessage` and `json.Unmarshal` in one loop iteration
(main.go, lines 70-80). -/
inductive ReadResult where
  | readError
  | undecodable
  | message (m : Message)
deriving DecidableEq

/-- One loop iteration's inputs: what was read, and the pointer position that
`robotgo.GetMousePos()` reports during this iteration. -/
structure Event where
  read : ReadResult
  mouseX : Int := 0
  mouseY : Int := 0
deriving DecidableEq

/-- The event carries no message, or a message as `json.Unmarshal` gives it. -/
def Event.Decoded (ev : Event) : Prop :=
  match ev.read with
  | ReadResult.message m => m.Decoded
  | _ => True

instance Event.decDecoded (ev : Event) : Decidable ev.Decoded := by
  unfold Event.Decoded
  split <;> infer_instance

/-! ## The handler -/

/-- The swipe threshold (main.go, line 130). -/
def threshold : F64 := F64.fin 5

/-- Case `"deviceinfo"` (main.go, lines 86-97). -/
def deviceinfo (conv : F64 → Int) (s : State) (m : Message) : State × List HostCall :=
  if m.TouchpadWidth > F64.fin 0 ∧ m.TouchpadHeight > F64.fin 0 ∧ m.ScreenWidth > F64.fin 0 ∧
      m.ScreenHeight > F64.fin 0 then
    let g1 : Globals :=
      { s.g with
        touchpadWidth := m.TouchpadWidth
        touchpadHeight := m.TouchpadHeight
        screenWidth := goInt conv m.ScreenWidth
        screenHeight := goInt conv m.ScreenHeight }
    let l1 : Locals :=
      { s.l with
        moveScaleX := F64.ofInt s.l.screenWMac / g1.touchpadWidth
        moveScaleY := F64.ofInt s.l.screenHMac / g1.touchpadHeight }
    (⟨g1, l1⟩, [])
  else (s, [])

/-- Case `"move"` (main.go, lines 99-103); `x`, `y` is the result of `GetMousePos`. -/
def move (conv : F64 → Int) (s : State) (m : Message) (x y : Int) : State × List HostCall :=
  let dx := goInt conv (m.Dx * s.l.moveScaleX)
  let dy := goInt conv (m.Dy * s.l.moveScaleY)
  (s, [HostCall.MoveMouseSmooth (wrap64 (x + dx)) (wrap64 (y + dy)) (F64.fin (1 / 2))
    (F64.fin (1 / 2))])

/-- Case `"click"` (main.go, lines 105-110). -/
def click (lower : String → String) (s : State) (m : Message) : State × List HostCall :=
  let btn := if m.Button ≠ "" then lower m.Button else "left"
  (s, [HostCall.Click btn])

/-- Case `"scroll"` (main.go, lines 112-117). -/
def scroll (conv : F64 → Int) (s : State) (m : Message) : State × List HostCall :=
  let h := goInt conv (m.Dx * s.l.scrollScale)
  let v := goInt conv (-m.Dy * s.l.scrollScale)
  if h ≠ 0 ∨ v ≠ 0 then (s, [HostCall.Scroll h v]) else (s, [])

/-- Case `"zoom"` (main.go, lines 119-125). -/
def zoom (conv : F64 → Int) (s : State) (m : Message) : State × List HostCall :=
  if m.Delta ≠ F64.fin 0 then
    let delta := goInt conv (-m.Delta * s.l.zoomScale)
    (s, [HostCall.KeyToggle "ctrl" "down", HostCall.Scroll 0 delta,
         HostCall.KeyToggle "ctrl" "up"])
  else (s, [])

/-- The first `if`/`else if` of case `"threeswipe"` (main.go, lines 133-141). -/
def swipeHorizontal (g : Globals) : Globals × List HostCall :=
  if g.threeSwipeDX > threshold then
    ({ g with threeSwipeDX := F64.fin 0, threeSwipeDY := F64.fin 0 },
      [HostCall.KeyTap "right" ["ctrl"]])
  else if g.threeSwipeDX < -threshold then
    ({ g with threeSwipeDX := F64.fin 0, threeSwipeDY := F64.fin 0 },
      [HostCall.KeyTap "left" ["ctrl"]])
  else (g, [])

/-- The second `if`/`else if` of case `"threeswipe"` (main.go, lines 144-152). -/
def swipeVertical (g : Globals) : Globals × List HostCall :=
  if g.threeSwipeDY > threshold then
    ({ g with threeSwipeDX := F64.fin 0, threeSwipeDY := F64.fin 0 },
      [HostCall.KeyTap "down" ["ctrl"]])
  else if g.threeSwipeDY < -threshold then
    ({ g with threeSwipeDX := F64.fin 0, threeSwipeDY := F64.fin 0 },
      [HostCall.KeyTap "up" ["ctrl"]])
  else (g, [])

/-- Case `"threeswipe"` (main.go, lines 127-152): accumulate, then the horizontal
statement, then the vertical statement. -/
def threeswipe (s : State) (m : Message) : State × List HostCall :=
  let g1 : Globals :=
    { s.g with
      threeSwipeDX := s.g.threeSwipeDX + m.Dx
      threeSwipeDY := s.g.threeSwipeDY + m.Dy }
  let hz := swipeHorizontal g1
  let vt := swipeVertical hz.1
  (⟨vt.1, s.l⟩, hz.2 ++ vt.2)

/-- The `switch strings.ToLower(m.Type)` statement (main.go, lines 84-156). -/
def dispatch (lower : String → String) (conv : F64 → Int) (s : State) (m : Message)
    (x y : Int) : State × List HostCall :=
  if lower m.MsgType = "deviceinfo" then deviceinfo conv s m
  else if lower m.MsgType = "move" then move conv s m x y
  else if lower m.MsgType = "click" then click lower s m
  else if lower m.MsgType = "scroll" then scroll conv s m
  else if lower m.MsgType = "zoom" then zoom conv s m
  else if lower m.MsgType = "threeswipe" then threeswipe s m
  else (s, [])

/-- One iteration of the `for` loop (main.go, lines 69-157): `none` is `break`,
`some` is the state and the host calls with which the loop goes on. -/
def iteration (lower : String → String) (conv : F64 → Int) (s : State) (ev : Event) :
    Option (State × List HostCall) :=
  match ev.read with
  | ReadResult.readError => none
  | ReadResult.undecodable => some (s, [])
  | ReadResult.message m => some (dispatch lower conv s m ev.mouseX ev.mouseY)

/-- The result of running the loop over a finite sequence of events. -/
structure Run where
  state : State
  calls : List HostCall
  ended : Bool
deriving DecidableEq

/-- The `for` loop (main.go, lines 69-157) over the events of a connection, until the
first read error or until the events given are used up. -/
def wsLoop (lower : String → String) (conv : F64 → Int) : State → List Event → Run
  | s, [] => { state := s, calls := [], ended := false }
  | s, ev :: rest =>
    match iteration lower conv s ev with
    | none => { state := s, calls := [], ended := true }
    | some (s1, cs) =>
      let r := wsLoop lower conv s1 rest
      { r with calls := cs ++ r.calls }

/-- Two connections served by one process: connection A's events are handled, then
connection B, with locals of its own, handles its events on the same globals. The
result is B's run. -/
def twoSessions (lower : String → String) (conv : F64 → Int) (g : Globals) (lA lB : Locals)
    (evA evB : List Event) : Run :=
  wsLoop lower conv ⟨(wsLoop lower conv ⟨g, lA⟩ evA).state.g, lB⟩ evB

/-! ## Inputs and predicates of the statements -/

/-- The event of a message of the given type with deltas `dx`, `dy` as JSON numbers. -/
def deltaEvent (spelling : String) (dx dy : ℚ) : Event :=
  { read := ReadResult.message { MsgType := spelling, Dx := json dx, Dy := json dy } }

/-- The event of a `zoom` message with the given delta as a JSON number. -/
def zoomEvent (delta : ℚ) : Event :=
  { read := ReadResult.message { MsgType := "zoom", Delta := json delta } }

/-- The event of a `threeswipe` message with the given deltas. -/
def swipeEvent (dx dy : ℚ) : Event := deltaEvent "threeswipe" dx dy

/-- A `deviceinfo` message with the given type spelling and dimensions as JSON
numbers. -/
def deviceinfoMessage (spelling : String) (tw th sw sh : ℚ) : Message :=
  { MsgType := spelling, TouchpadWidth := json tw, TouchpadHeight := json th,
    ScreenWidth := json sw, ScreenHeight := json sh }

/-- A connection of a fresh process on a host screen of `w` by `h` with `-scale` set to
the JSON-style number `scale`. -/
def startState (w h : Int) (scale : ℚ) : State := ⟨initGlobals, sessionInit w h (json scale)⟩

/-- A connection of a fresh process on a host screen of 2000 by 2400 with `-scale 5`. -/
def freshState : State := startState 2000 2400 5

/-- The state of that connection once touchpad 500 by 800, screen `sw` by `sh` has
been applied. -/
def calibratedState (sw sh : Int) : State :=
  ⟨{ initGlobals with screenWidth := sw, screenHeight := sh },
   { sessionInit 2000 2400 (json 5) with moveScaleX := F64.fin 4, moveScaleY := F64.fin 3 }⟩

/-- The event is a `deviceinfo` message that passes the guard of main.go, line 88. -/
def Calibrates (lower : String → String) (ev : Event) : Prop :=
  match ev.read with
  | ReadResult.message m =>
    lower m.MsgType = "deviceinfo" ∧
      (m.TouchpadWidth > F64.fin 0 ∧ m.TouchpadHeight > F64.fin 0 ∧
        m.ScreenWidth > F64.fin 0 ∧ m.ScreenHeight > F64.fin 0)
  | _ => False

instance instDecidableCalibrates (lower : String → String) (ev : Event) :
    Decidable (Calibrates lower ev) := by
  unfold Calibrates
  split <;> infer_instance

/-- The event is a `threeswipe` message. -/
def IsSwipe (lower : String → String) (ev : Event) : Prop :=
  match ev.read with
  | ReadResult.message m => lower m.MsgType = "threeswipe"
  | _ => False

instance instDecidableIsSwipe (lower : String → String) (ev : Event) :
    Decidable (IsSwipe lower ev) := by
  unfold IsSwipe
  split <;> infer_instance

/-- The state of the `ctrl` modifier after one host call: `KeyToggle` holds or
releases it, every other call leaves it as it was (`KeyTap` presses and releases
within the call). -/
def ctrlAfter (held : Bool) (c : HostCall) : Bool :=
  match c with
  | HostCall.KeyToggle key st =>
    if key = "ctrl" ∧ st = "down" then true
    else if key = "ctrl" ∧ st = "up" then false
    else held
  | _ => held

/-- Whether `ctrl` is held after a sequence of host calls that starts with it
released. -/
def ctrlHeld (calls : List HostCall) : Bool := calls.foldl ctrlAfter false

/-- The accumulator value is finite and within the swipe threshold. -/
def Within : F64 → Prop
  | F64.fin q => -5 ≤ q ∧ q ≤ 5
  | _ => False

instance instDecidableWithin (f : F64) : Decidable (Within f) := by
  cases f <;> unfold Within <;> infer_instance

/-- Both accumulators are finite and within the swipe threshold. -/
def AccWithin (g : Globals) : Prop := Within g.threeSwipeDX ∧ Within g.threeSwipeDY

instance instDecidableAccWithin (g : Globals) : Decidable (AccWithin g) := by
  unfold AccWithin
  infer_instance

/-! ## Float64 and int facts -/

theorem F64.lt_fin (a b : ℚ) : (F64.fin a < F64.fin b) ↔ a < b := by
  show F64.blt (F64.fin a) (F64.fin b) = true ↔ a < b
  simp [F64.blt]

theorem F64.round_cases (q : ℚ) :
    (∃ r : ℚ, F64.round q = F64.fin r) ∨ F64.round q = F64.posInf ∨
      F64.round q = F64.negInf := by
  unfold F64.round
  split_ifs <;> simp

theorem F64.round_ne_nan (q : ℚ) : F64.round q ≠ F64.nan := by
  rcases F64.round_cases q with ⟨r, h⟩ | h | h <;> rw [h] <;> simp

theorem F64.round_zero : F64.round 0 = F64.fin 0 := by
  simp [F64.round]

theorem F64.add_fin (a b : ℚ) : F64.fin a + F64.fin b = F64.round (a + b) := rfl

theorem F64.mul_fin (a b : ℚ) : F64.fin a * F64.fin b = F64.round (a * b) := rfl

theorem F64.neg_fin (a : ℚ) : -F64.fin a = F64.fin (-a) := rfl

theorem F64.div_fin (a b : ℚ) (h : b ≠ 0) : F64.fin a / F64.fin b = F64.round (a / b) := by
  show F64.div (F64.fin a) (F64.fin b) = _
  simp [F64.div, h]

theorem F64.valid_fin {f : F64} (h : f.Valid) : ∃ q : ℚ, f = F64.fin q ∧ F64.round q = F64.fin q := by
  cases f with
  | fin q => exact ⟨q, rfl, h⟩
  | posInf => exact h.elim
  | negInf => exact h.elim
  | nan => exact h.elim

theorem F64.mul_one_of_valid {f : F64} (h : f.Valid) : f * F64.fin 1 = f := by
  obtain ⟨q, rfl, hq⟩ := F64.valid_fin h
  rw [F64.mul_fin, mul_one, hq]

theorem F64.zero_mul_fin (b : ℚ) : F64.fin 0 * F64.fin b = F64.fin 0 := by
  rw [F64.mul_fin, zero_mul, F64.round_zero]

theorem goInt_fin_of_fits (conv : F64 → Int) (q : ℚ)
    (h : Fits64 (truncQ q)) : goInt conv (F64.fin q) = truncQ q := by
  rw [goInt, if_pos h]

theorem goInt_zero (conv : F64 → Int) : goInt conv (F64.fin 0) = 0 := by
  have h0 : truncQ 0 = 0 := by simp [truncQ]
  rw [goInt_fin_of_fits conv 0 (by rw [h0]; decide), h0]

theorem wrap64_of_fits (n : Int) (h : Fits64 n) : wrap64 n = n := by
  unfold Fits64 at h
  unfold wrap64
  rw [Int.emod_eq_of_lt (by omega) (by omega)]
  omega

theorem truncQ_nonneg {q : ℚ} (h : 0 ≤ q) : ((truncQ q : Int) : ℚ) ≤ q ∧ q < (truncQ q : ℚ) + 1 := by
  rw [truncQ, if_pos h]
  exact ⟨Int.floor_le q, Int.lt_floor_add_one q⟩

theorem truncQ_nonpos {q : ℚ} (h : q ≤ 0) : q ≤ (truncQ q : ℚ) ∧ (truncQ q : ℚ) - 1 < q := by
  unfold truncQ
  split_ifs with h0
  · have hq : q = 0 := le_antisymm h h0
    subst hq
    simp
  · refine ⟨Int.le_ceil q, ?_⟩
    have := Int.ceil_lt_add_one q
    linarith

theorem within_of_quiet {f : F64} (hn : f ≠ F64.nan) (h1 : ¬ f > threshold)
    (h2 : ¬ f < -threshold) : Within f := by
  cases f with
  | fin q =>
    have h1q : ¬ (5 : ℚ) < q := fun h => h1 ((F64.lt_fin 5 q).mpr h)
    have h2q : ¬ q < (-5 : ℚ) := fun h => h2 ((F64.lt_fin q (-5)).mpr h)
    exact ⟨not_lt.mp h2q, not_lt.mp h1q⟩
  | posInf => exact (h1 (by decide)).elim
  | negInf => exact (h2 (by decide)).elim
  | nan => exact (hn rfl).elim

theorem within_zero : Within (F64.fin 0) := by
  show (-5 : ℚ) ≤ 0 ∧ (0 : ℚ) ≤ 5
  norm_num

theorem add_ne_nan_of_within {a b : F64} (ha : Within a) (hb : b.Valid) : a + b ≠ F64.nan := by
  obtain ⟨q, rfl, -⟩ := F64.valid_fin hb
  cases a with
  | fin p => rw [F64.add_fin]; exact F64.round_ne_nan _
  | posInf => exact ha.elim
  | negInf => exact ha.elim
  | nan => exact ha.elim

/-! ## Dispatch and loop equations -/

theorem iteration_message (lower : String → String) (conv : F64 → Int) (s : State)
    (m : Message) (x y : Int) :
    iteration lower conv s ⟨ReadResult.message m, x, y⟩ = some (dispatch lower conv s m x y) :=
  rfl

theorem dispatch_deviceinfo {lower : String → String} {m : Message}
    (h : lower m.MsgType = "deviceinfo") (conv : F64 → Int) (s : State) (x y : Int) :
    dispatch lower conv s m x y = deviceinfo conv s m := by
  simp [dispatch, h]

theorem dispatch_move {lower : String → String} {m : Message}
    (h : lower m.MsgType = "move") (conv : F64 → Int) (s : State) (x y : Int) :
    dispatch lower conv s m x y = move conv s m x y := by
  simp [dispatch, h]

theorem dispatch_click {lower : String → String} {m : Message}
    (h : lower m.MsgType = "click") (conv : F64 → Int) (s : State) (x y : Int) :
    dispatch lower conv s m x y = click lower s m := by
  simp [dispatch, h]

theorem dispatch_scroll {lower : String → String} {m : Message}
    (h : lower m.MsgType = "scroll") (conv : F64 → Int) (s : State) (x y : Int) :
    dispatch lower conv s m x y = scroll conv s m := by
  simp [dispatch, h]

theorem dispatch_zoom {lower : String → String} {m : Message}
    (h : lower m.MsgType = "zoom") (conv : F64 → Int) (s : State) (x y : Int) :
    dispatch lower conv s m x y = zoom conv s m := by
  simp [dispatch, h]

theorem dispatch_threeswipe {lower : String → String} {m : Message}
    (h : lower m.MsgType = "threeswipe") (conv : F64 → Int) (s : State) (x y : Int) :
    dispatch lower conv s m x y = threeswipe s m := by
  simp [dispatch, h]

theorem wsLoop_nil (lower : String → String) (conv : F64 → Int) (s : State) :
    wsLoop lower conv s [] = { state := s, calls := [], ended := false } := rfl

theorem wsLoop_readError (lower : String → String) (conv : F64 → Int) (s : State)
    (ev : Event) (rest : List Event) (h : ev.read = ReadResult.readError) :
    wsLoop lower conv s (ev :: rest) = { state := s, calls := [], ended := true } := by
  simp [wsLoop, iteration, h]

theorem wsLoop_undecodable (lower : String → String) (conv : F64 → Int) (s : State)
    (ev : Event) (rest : List Event) (h : ev.read = ReadResult.undecodable) :
    wsLoop lower conv s (ev :: rest) = wsLoop lower conv s rest := by
  simp [wsLoop, iteration, h]

theorem wsLoop_message (lower : String → String) (conv : F64 → Int) (s : State)
    (ev : Event) (rest : List Event) (m : Message) (h : ev.read = ReadResult.message m) :
    wsLoop lower conv s (ev :: rest) =
      { wsLoop lower conv (dispatch lower conv s m ev.mouseX ev.mouseY).1 rest with
        calls := (dispatch lower conv s m ev.mouseX ev.mouseY).2 ++
          (wsLoop lower conv (dispatch lower conv s m ev.mouseX ev.mouseY).1 rest).calls } := by
  simp [wsLoop, iteration, h]

/-! ## The cases of the switch -/

theorem deviceinfo_acc (conv : F64 → Int) (s : State) (m : Message) :
    (deviceinfo conv s m).1.g.threeSwipeDX = s.g.threeSwipeDX ∧
      (deviceinfo conv s m).1.g.threeSwipeDY = s.g.threeSwipeDY := by
  unfold deviceinfo
  split_ifs <;> exact ⟨rfl, rfl⟩

theorem deviceinfo_fixed_locals (conv : F64 → Int) (s : State) (m : Message) :
    (deviceinfo conv s m).1.l.screenWMac = s.l.screenWMac ∧
      (deviceinfo conv s m).1.l.screenHMac = s.l.screenHMac ∧
      (deviceinfo conv s m).1.l.scrollScale = s.l.scrollScale ∧
      (deviceinfo conv s m).1.l.zoomScale = s.l.zoomScale := by
  unfold deviceinfo
  split_ifs <;> exact ⟨rfl, rfl, rfl, rfl⟩

theorem deviceinfo_guard_fails (conv : F64 → Int) (s : State) (m : Message)
    (h : ¬ (m.TouchpadWidth > F64.fin 0 ∧ m.TouchpadHeight > F64.fin 0 ∧
      m.ScreenWidth > F64.fin 0 ∧ m.ScreenHeight > F64.fin 0)) :
    deviceinfo conv s m = (s, []) := by
  rw [deviceinfo, if_neg h]

theorem scroll_state (conv : F64 → Int) (s : State) (m : Message) :
    (scroll conv s m).1 = s := by
  simp only [scroll]
  split_ifs <;> rfl

theorem zoom_state (conv : F64 → Int) (s : State) (m : Message) : (zoom conv s m).1 = s := by
  simp only [zoom]
  split_ifs <;> rfl

theorem threeswipe_calls (s : State) (m : Message) :
    (threeswipe s m).2 =
      if s.g.threeSwipeDX + m.Dx > F64.fin 5 then [HostCall.KeyTap "right" ["ctrl"]]
      else if s.g.threeSwipeDX + m.Dx < F64.fin (-5) then [HostCall.KeyTap "left" ["ctrl"]]
      else if s.g.threeSwipeDY + m.Dy > F64.fin 5 then [HostCall.KeyTap "down" ["ctrl"]]
      else if s.g.threeSwipeDY + m.Dy < F64.fin (-5) then [HostCall.KeyTap "up" ["ctrl"]]
      else [] := by
  have h0 : ¬ (F64.fin 0 > F64.fin 5) := by decide
  have h1 : ¬ (F64.fin 0 < F64.fin (-5)) := by decide
  simp only [threeswipe, swipeHorizontal, swipeVertical, threshold, F64.neg_fin]
  split_ifs <;> simp_all

theorem threeswipe_fired (s : State) (m : Message) (h : (threeswipe s m).2 ≠ []) :
    (threeswipe s m).1.g.threeSwipeDX = F64.fin 0 ∧
      (threeswipe s m).1.g.threeSwipeDY = F64.fin 0 := by
  revert h
  simp only [threeswipe, swipeHorizontal, swipeVertical, threshold]
  split_ifs <;> simp_all

theorem threeswipe_quiet (s : State) (m : Message) (h : (threeswipe s m).2 = []) :
    (threeswipe s m).1.g.threeSwipeDX = s.g.threeSwipeDX + m.Dx ∧
      (threeswipe s m).1.g.threeSwipeDY = s.g.threeSwipeDY + m.Dy := by
  revert h
  simp only [threeswipe, swipeHorizontal, swipeVertical, threshold]
  split_ifs <;> simp_all

theorem threeswipe_within (s : State) (m : Message) (h : AccWithin s.g) (hd : m.Decoded) :
    AccWithin (threeswipe s m).1.g := by
  have hx := add_ne_nan_of_within h.1 hd.1
  have hy := add_ne_nan_of_within h.2 hd.2.1
  by_cases hc : (threeswipe s m).2 = []
  · obtain ⟨ex, ey⟩ := threeswipe_quiet s m hc
    rw [threeswipe_calls] at hc
    unfold AccWithin
    rw [ex, ey]
    split_ifs at hc with a b c d
    exact ⟨within_of_quiet hx a b, within_of_quiet hy c d⟩
  · obtain ⟨ex, ey⟩ := threeswipe_fired s m hc
    unfold AccWithin
    rw [ex, ey]
    exact ⟨within_zero, within_zero⟩

theorem zoom_calls_released (conv : F64 → Int) (s : State) (m : Message) :
    (zoom conv s m).2.foldl ctrlAfter false = false := by
  simp only [zoom]
  split_ifs
  · simp [ctrlAfter]
  · rfl

/-! ## Rounding is idempotent -/

theorem pow2_eq_zpow (e : Int) : pow2 e = (2 : ℚ) ^ e := by
  unfold pow2
  split_ifs with h
  · obtain ⟨n, rfl⟩ := Int.eq_ofNat_of_zero_le h
    simp
  · have hn : 0 ≤ -e := by omega
    obtain ⟨n, hn'⟩ := Int.eq_ofNat_of_zero_le hn
    have he : e = -(n : Int) := by omega
    subst he
    simp

theorem pow2_pos (e : Int) : 0 < pow2 e := by
  rw [pow2_eq_zpow]
  exact zpow_pos (by norm_num) e

theorem pow2_add (a b : Int) : pow2 (a + b) = pow2 a * pow2 b := by
  simp only [pow2_eq_zpow]
  exact zpow_add₀ (by norm_num) a b

theorem pow2_lt_iff (a b : Int) : pow2 a < pow2 b ↔ a < b := by
  simp only [pow2_eq_zpow]
  exact zpow_lt_zpow_iff_right₀ (by norm_num)

theorem pow2_le_iff (a b : Int) : pow2 a ≤ pow2 b ↔ a ≤ b := by
  simp only [pow2_eq_zpow]
  exact zpow_le_zpow_iff_right₀ (by norm_num)

theorem pow2_natCast (n : Nat) : pow2 (n : Int) = ((2 ^ n : ℕ) : ℚ) := by
  rw [pow2_eq_zpow]
  simp

theorem log2Fuel_spec : ∀ (fuel n : Nat), n ≤ fuel → 1 ≤ n →
    2 ^ log2Fuel fuel n ≤ n ∧ n < 2 ^ (log2Fuel fuel n + 1) := by
  intro fuel
  induction fuel with
  | zero => intro n h0 h1; omega
  | succ fuel ih =>
    intro n hn h1
    unfold log2Fuel
    split_ifs with h2
    · obtain ⟨l, u⟩ := ih (n / 2) (by omega) (by omega)
      rw [pow_succ, pow_succ]
      rw [pow_succ] at u
      constructor <;> omega
    · have : n = 1 := by omega
      subst this
      simp

/-- An exponent between whose powers of two a value lies is unique. -/
theorem pow2_unique {a : ℚ} {j k : Int} (hj : pow2 j ≤ a ∧ a < pow2 (j + 1))
    (hk : pow2 k ≤ a ∧ a < pow2 (k + 1)) : j = k := by
  have h1 : j < k + 1 := (pow2_lt_iff _ _).mp (lt_of_le_of_lt hj.1 hk.2)
  have h2 : k < j + 1 := (pow2_lt_iff _ _).mp (lt_of_le_of_lt hk.1 hj.2)
  omega

theorem ilog2_spec {a : ℚ} (ha : 0 < a) : pow2 (ilog2 a) ≤ a ∧ a < pow2 (ilog2 a + 1) := by
  have hnum : 0 < a.num := Rat.num_pos.mpr ha
  obtain ⟨n, hn⟩ := Int.eq_ofNat_of_zero_le hnum.le
  have hn1 : 1 ≤ n := by omega
  have hd1 : 1 ≤ a.den := a.den_pos
  obtain ⟨nl, nu⟩ := log2Fuel_spec n n le_rfl hn1
  obtain ⟨dl, du⟩ := log2Fuel_spec a.den a.den le_rfl hd1
  have hnat : a.num.natAbs = n := by omega
  have hdq : (0 : ℚ) < a.den := by exact_mod_cast hd1
  have haq : a = (n : ℚ) / a.den := by
    have h := Rat.num_div_den a
    rw [hn, Int.cast_natCast] at h
    exact h.symm
  -- the bounds as rationals
  have nlq : pow2 (log2Fuel n n : Int) ≤ (n : ℚ) := by
    rw [pow2_natCast]; exact_mod_cast nl
  have nuq : (n : ℚ) < pow2 ((log2Fuel n n : Int) + 1) := by
    have : ((log2Fuel n n : Int) + 1) = ((log2Fuel n n + 1 : Nat) : Int) := by push_cast; rfl
    rw [this, pow2_natCast]; exact_mod_cast nu
  have dlq : pow2 (log2Fuel a.den a.den : Int) ≤ (a.den : ℚ) := by
    rw [pow2_natCast]; exact_mod_cast dl
  have duq : (a.den : ℚ) < pow2 ((log2Fuel a.den a.den : Int) + 1) := by
    have : ((log2Fuel a.den a.den : Int) + 1) = ((log2Fuel a.den a.den + 1 : Nat) : Int) := by
      push_cast; rfl
    rw [this, pow2_natCast]; exact_mod_cast du
  set kn : Int := (log2Fuel n n : Int) with hkn
  set kd : Int := (log2Fuel a.den a.den : Int) with hkd
  -- a lies strictly between 2^(k-1) and 2^(k+1)
  have lower : pow2 (kn - kd - 1) < a := by
    rw [haq, lt_div_iff₀ hdq]
    calc pow2 (kn - kd - 1) * (a.den : ℚ) < pow2 (kn - kd - 1) * pow2 (kd + 1) :=
          mul_lt_mul_of_pos_left duq (pow2_pos _)
      _ = pow2 kn := by rw [← pow2_add]; congr 1; ring
      _ ≤ n := nlq
  have upper : a < pow2 (kn - kd + 1) := by
    rw [haq, div_lt_iff₀ hdq]
    calc (n : ℚ) < pow2 (kn + 1) := nuq
      _ = pow2 (kn - kd + 1) * pow2 kd := by rw [← pow2_add]; congr 1; ring
      _ ≤ pow2 (kn - kd + 1) * (a.den : ℚ) :=
          mul_le_mul_of_nonneg_left dlq (pow2_pos _).le
  unfold ilog2
  simp only [hnat, ← hkn, ← hkd]
  split_ifs with h
  · exact ⟨h, upper⟩
  · refine ⟨lower.le, ?_⟩
    rw [sub_add_cancel]
    exact not_le.mp h

theorem ilog2_eq {a : ℚ} {k : Int} (h : pow2 k ≤ a ∧ a < pow2 (k + 1)) : ilog2 a = k :=
  pow2_unique (ilog2_spec (lt_of_lt_of_le (pow2_pos k) h.1)) h

theorem roundHalfEven_intCast (n : Int) : roundHalfEven (n : ℚ) = n := by
  unfold roundHalfEven
  simp

theorem roundHalfEven_bounds (x : ℚ) :
    Int.floor x ≤ roundHalfEven x ∧ roundHalfEven x ≤ Int.floor x + 1 := by
  unfold roundHalfEven
  split_ifs <;> constructor <;> omega

theorem ulp_eq_of_exponent {b : ℚ} {e : Int} (he : -1022 ≤ e)
    (h : (pow2 e ≤ b ∧ b < pow2 (e + 1)) ∨ (e = -1022 ∧ 0 < b ∧ b < pow2 (-1022))) :
    ulp b = pow2 (e - 52) := by
  unfold ulp
  rcases h with h | ⟨he2, hb0, hb⟩
  · rw [ilog2_eq h, max_eq_left he]
  · have hs := ilog2_spec hb0
    have hlt : ilog2 b < -1022 := (pow2_lt_iff _ _).mp (lt_of_le_of_lt hs.1 hb)
    rw [max_eq_right hlt.le, he2]

theorem roundMag_idem {a : ℚ} (ha : 0 < a) (hpos : 0 < roundMag a) :
    roundMag (roundMag a) = roundMag a := by
  have c52 : pow2 52 = ((4503599627370496 : Int) : ℚ) := by
    rw [pow2_eq_zpow]; norm_num
  have c53 : pow2 53 = ((9007199254740992 : Int) : ℚ) := by
    rw [pow2_eq_zpow]; norm_num
  obtain ⟨sl, su⟩ := ilog2_spec ha
  set L := ilog2 a with hL
  set e := max L (-1022) with he
  have he1 : -1022 ≤ e := le_max_right _ _
  have heL : L ≤ e := le_max_left _ _
  have hu : 0 < pow2 (e - 52) := pow2_pos _
  have hulp : ulp a = pow2 (e - 52) := rfl
  set u := pow2 (e - 52) with hudef
  set n := roundHalfEven (a / u) with hn
  have hmag : roundMag a = (n : ℚ) * u := rfl
  have e52 : pow2 e = pow2 52 * u := by rw [hudef, ← pow2_add]; congr 1; ring
  have e53 : pow2 (e + 1) = pow2 53 * u := by rw [hudef, ← pow2_add]; congr 1; ring
  obtain ⟨nl, nu⟩ := roundHalfEven_bounds (a / u)
  rw [← hn] at nl nu
  have hn0 : 0 < n := by
    rw [hmag] at hpos
    have : (0 : ℚ) < n := (mul_pos_iff_of_pos_right hu).mp hpos
    exact_mod_cast this
  -- the quotient is below 2^53
  have hx53 : a / u < pow2 53 := by
    rw [div_lt_iff₀ hu, ← e53]
    exact lt_of_lt_of_le su ((pow2_le_iff _ _).mpr (by omega))
  have hn53 : n ≤ 9007199254740992 := by
    have : Int.floor (a / u) < 9007199254740992 := by
      rw [Int.floor_lt, ← c53]; exact hx53
    omega
  rw [hmag]
  by_cases htop : n = 9007199254740992
  · -- the rounding carried into the next binade
    have hm : (n : ℚ) * u = pow2 (e + 1) := by rw [e53, c53, htop]
    have hu2 : ulp ((n : ℚ) * u) = pow2 (e + 1 - 52) := by
      apply ulp_eq_of_exponent (by omega)
      left
      rw [hm]
      exact ⟨le_rfl, (pow2_lt_iff _ _).mpr (by omega)⟩
    unfold roundMag
    rw [hu2, hm]
    have hq : pow2 (e + 1) / pow2 (e + 1 - 52) = ((4503599627370496 : Int) : ℚ) := by
      rw [div_eq_iff (pow2_pos _).ne', ← c52, ← pow2_add]; congr 1; ring
    rw [hq, roundHalfEven_intCast, ← c52, ← pow2_add]
    congr 1; ring
  · have hn53' : n < 9007199254740992 := by omega
    have hu2 : ulp ((n : ℚ) * u) = u := by
      apply ulp_eq_of_exponent he1
      by_cases hlow : 4503599627370496 ≤ n
      · left
        constructor
        · rw [e52, c52]
          exact mul_le_mul_of_nonneg_right (by exact_mod_cast hlow) hu.le
        · rw [e53, c53]
          exact mul_lt_mul_of_pos_right (by exact_mod_cast hn53') hu
      · right
        have hsub : L < -1022 := by
          by_contra hc
          have heq : e = L := max_eq_left (by omega)
          have : pow2 52 ≤ a / u := by
            rw [le_div_iff₀ hu, ← e52, heq]; exact sl
          have : (4503599627370496 : Int) ≤ Int.floor (a / u) := by
            rw [Int.le_floor, ← c52]; exact this
          omega
        have heq : e = -1022 := max_eq_right (by omega)
        refine ⟨heq, mul_pos (by exact_mod_cast hn0) hu, ?_⟩
        rw [← heq, e52, c52]
        exact mul_lt_mul_of_pos_right (by exact_mod_cast (not_le.mp hlow)) hu
    unfold roundMag
    rw [hu2, mul_div_assoc, div_self hu.ne', mul_one, roundHalfEven_intCast]

/-- Rounding leaves a float64 value as it is: every finite result of `F64.round` is a
fixed point of it. -/
theorem F64.round_idem {q r : ℚ} (h : F64.round q = F64.fin r) : F64.round r = F64.fin r := by
  unfold F64.round at h
  split_ifs at h with h0 hov hs
  · cases h
    exact F64.round_zero
  · have ha : 0 < |q| := abs_pos.mpr h0
    have hr : r = roundMag |q| := by cases h; rfl
    by_cases hz : roundMag |q| = 0
    · rw [hr, hz]; exact F64.round_zero
    · have hnn : 0 ≤ roundMag |q| := by
        unfold roundMag
        apply mul_nonneg _ (pow2_pos _).le
        have := (roundHalfEven_bounds (|q| / ulp |q|)).1
        have hf : 0 ≤ Int.floor (|q| / ulp |q|) :=
          Int.floor_nonneg.mpr (div_nonneg ha.le (pow2_pos _).le)
        exact_mod_cast le_trans hf this
      have hp : 0 < roundMag |q| := lt_of_le_of_ne hnn (Ne.symm hz)
      have hi := roundMag_idem ha hp
      rw [hr]
      unfold F64.round
      rw [if_neg hz, abs_of_pos hp, hi, if_neg hov, if_pos hp]
  · have ha : 0 < |q| := abs_pos.mpr h0
    have hr : r = -roundMag |q| := by cases h; rfl
    by_cases hz : roundMag |q| = 0
    · rw [hr, hz, neg_zero]; exact F64.round_zero
    · have hnn : 0 ≤ roundMag |q| := by
        unfold roundMag
        apply mul_nonneg _ (pow2_pos _).le
        have := (roundHalfEven_bounds (|q| / ulp |q|)).1
        have hf : 0 ≤ Int.floor (|q| / ulp |q|) :=
          Int.floor_nonneg.mpr (div_nonneg ha.le (pow2_pos _).le)
        exact_mod_cast le_trans hf this
      have hp : 0 < roundMag |q| := lt_of_le_of_ne hnn (Ne.symm hz)
      have hi := roundMag_idem ha hp
      rw [hr]
      unfold F64.round
      have hneg : ¬ (0 < -roundMag |q|) := by linarith
      have hne : -roundMag |q| ≠ 0 := by linarith
      rw [if_neg hne, abs_neg, abs_of_pos hp, hi, if_neg hov, if_neg hneg]

/-- Every finite number that `json.Unmarshal` stores is a float64 value in the sense
of `F64.Valid`. -/
theorem json_valid {q r : ℚ} (h : json q = F64.fin r) : (json q).Valid := by
  rw [h]
  exact F64.round_idem h

/-! ## One message -/

theorem dispatch_within (lower : String → String) (conv : F64 → Int) (s : State)
    (m : Message) (x y : Int) (h : AccWithin s.g) (hd : m.Decoded) :
    AccWithin (dispatch lower conv s m x y).1.g := by
  unfold dispatch
  split_ifs
  · unfold AccWithin
    rw [(deviceinfo_acc conv s m).1, (deviceinfo_acc conv s m).2]
    exact h
  · exact h
  · exact h
  · rw [scroll_state]
    exact h
  · rw [zoom_state]
    exact h
  · exact threeswipe_within s m h hd
  · exact h

/-- The part of the locals that no case of the switch assigns. -/
theorem dispatch_fixed_locals (lower : String → String) (conv : F64 → Int) (s : State)
    (m : Message) (x y : Int) :
    (dispatch lower conv s m x y).1.l.screenWMac = s.l.screenWMac ∧
      (dispatch lower conv s m x y).1.l.screenHMac = s.l.screenHMac ∧
      (dispatch lower conv s m x y).1.l.scrollScale = s.l.scrollScale ∧
      (dispatch lower conv s m x y).1.l.zoomScale = s.l.zoomScale := by
  unfold dispatch
  split_ifs
  · exact deviceinfo_fixed_locals conv s m
  · exact ⟨rfl, rfl, rfl, rfl⟩
  · exact ⟨rfl, rfl, rfl, rfl⟩
  · rw [scroll_state]
    exact ⟨rfl, rfl, rfl, rfl⟩
  · rw [zoom_state]
    exact ⟨rfl, rfl, rfl, rfl⟩
  · exact ⟨rfl, rfl, rfl, rfl⟩
  · exact ⟨rfl, rfl, rfl, rfl⟩

/-- Without a `deviceinfo` message that passes the guard, the switch leaves the locals
as they are. -/
theorem dispatch_moveScale (lower : String → String) (conv : F64 → Int) (s : State)
    (m : Message) (x y : Int)
    (h : ¬ (lower m.MsgType = "deviceinfo" ∧
      (m.TouchpadWidth > F64.fin 0 ∧ m.TouchpadHeight > F64.fin 0 ∧
        m.ScreenWidth > F64.fin 0 ∧ m.ScreenHeight > F64.fin 0))) :
    (dispatch lower conv s m x y).1.l = s.l := by
  unfold dispatch
  split_ifs with h1
  · rw [deviceinfo_guard_fails conv s m (fun hp => h ⟨h1, hp⟩)]
  · rfl
  · rfl
  · rw [scroll_state]
  · rw [zoom_state]
  · rfl
  · rfl

theorem dispatch_calls_released (lower : String → String) (conv : F64 → Int) (s : State)
    (m : Message) (x y : Int) :
    (dispatch lower conv s m x y).2.foldl ctrlAfter false = false := by
  unfold dispatch
  split_ifs
  · simp only [deviceinfo]
    split_ifs <;> rfl
  · rfl
  · rfl
  · simp only [scroll]
    split_ifs <;> rfl
  · exact zoom_calls_released conv s m
  · rw [threeswipe_calls]
    split_ifs <;> rfl
  · rfl

theorem dispatch_locals_indep (lower : String → String) (conv : F64 → Int) (s t : State)
    (m : Message) (x y : Int) (hl : s.l = t.l) :
    (dispatch lower conv s m x y).1.l = (dispatch lower conv t m x y).1.l := by
  unfold dispatch
  split_ifs
  · simp only [deviceinfo, hl]
    split_ifs <;> simp [hl]
  · exact hl
  · exact hl
  · rw [scroll_state, scroll_state]
    exact hl
  · rw [zoom_state, zoom_state]
    exact hl
  · exact hl
  · exact hl

theorem dispatch_calls_indep (lower : String → String) (conv : F64 → Int) (s t : State)
    (m : Message) (x y : Int) (hl : s.l = t.l) (hswipe : lower m.MsgType ≠ "threeswipe") :
    (dispatch lower conv s m x y).2 = (dispatch lower conv t m x y).2 := by
  unfold dispatch
  split_ifs
  · simp only [deviceinfo]
    split_ifs <;> rfl
  · simp only [move, hl]
  · rfl
  · simp only [scroll, hl]
    split_ifs <;> rfl
  · simp only [zoom, hl]
    split_ifs <;> rfl
  · rfl

theorem dispatch_acc_nonswipe (lower : String → String) (conv : F64 → Int) (s : State)
    (m : Message) (x y : Int) (hswipe : lower m.MsgType ≠ "threeswipe") :
    (dispatch lower conv s m x y).1.g.threeSwipeDX = s.g.threeSwipeDX ∧
      (dispatch lower conv s m x y).1.g.threeSwipeDY = s.g.threeSwipeDY := by
  unfold dispatch
  split_ifs
  · exact deviceinfo_acc conv s m
  · exact ⟨rfl, rfl⟩
  · exact ⟨rfl, rfl⟩
  · rw [scroll_state]
    exact ⟨rfl, rfl⟩
  · rw [zoom_state]
    exact ⟨rfl, rfl⟩
  · exact ⟨rfl, rfl⟩

theorem dispatch_calls_same_acc (lower : String → String) (conv : F64 → Int) (s t : State)
    (m : Message) (x y : Int) (hl : s.l = t.l) (hx : s.g.threeSwipeDX = t.g.threeSwipeDX)
    (hy : s.g.threeSwipeDY = t.g.threeSwipeDY) :
    (dispatch lower conv s m x y).2 = (dispatch lower conv t m x y).2 ∧
      (dispatch lower conv s m x y).1.g.threeSwipeDX =
        (dispatch lower conv t m x y).1.g.threeSwipeDX ∧
      (dispatch lower conv s m x y).1.g.threeSwipeDY =
        (dispatch lower conv t m x y).1.g.threeSwipeDY := by
  by_cases hswipe : lower m.MsgType = "threeswipe"
  · rw [dispatch_threeswipe hswipe, dispatch_threeswipe hswipe]
    simp only [threeswipe, swipeHorizontal, swipeVertical, hx, hy]
    split_ifs <;> simp
  · obtain ⟨sx, sy⟩ := dispatch_acc_nonswipe lower conv s m x y hswipe
    obtain ⟨tx, ty⟩ := dispatch_acc_nonswipe lower conv t m x y hswipe
    exact ⟨dispatch_calls_indep lower conv s t m x y hl hswipe, by rw [sx, tx, hx],
      by rw [sy, ty, hy]⟩

theorem iteration_within (lower : String → String) (conv : F64 → Int) (s s1 : State)
    (ev : Event) (calls : List HostCall) (h : AccWithin s.g) (hd : ev.Decoded)
    (hstep : iteration lower conv s ev = some (s1, calls)) : AccWithin s1.g := by
  cases hr : ev.read with
  | readError => simp [iteration, hr] at hstep
  | undecodable =>
    simp only [iteration, hr, Option.some.injEq, Prod.mk.injEq] at hstep
    rw [← hstep.1]
    exact h
  | message m =>
    simp only [iteration, hr, Option.some.injEq] at hstep
    simp only [Event.Decoded, hr] at hd
    have hw := dispatch_within lower conv s m ev.mouseX ev.mouseY h hd
    rw [hstep] at hw
    exact hw

/-! ## A run of the loop -/

theorem wsLoop_within (lower : String → String) (conv : F64 → Int) (evs : List Event) :
    ∀ s : State, AccWithin s.g → (∀ ev ∈ evs, ev.Decoded) →
      AccWithin (wsLoop lower conv s evs).state.g := by
  induction evs with
  | nil => intro s h _; exact h
  | cons ev rest ih =>
    intro s h hd
    have hrest : ∀ e ∈ rest, e.Decoded := fun e he => hd e (List.mem_cons_of_mem _ he)
    have hev : ev.Decoded := hd ev (List.mem_cons_self _ _)
    cases hr : ev.read with
    | readError => rw [wsLoop_readError lower conv s ev rest hr]; exact h
    | undecodable => rw [wsLoop_undecodable lower conv s ev rest hr]; exact ih s h hrest
    | message m =>
      rw [wsLoop_message lower conv s ev rest m hr]
      simp only [Event.Decoded, hr] at hev
      exact ih _ (dispatch_within lower conv s m ev.mouseX ev.mouseY h hev) hrest

theorem wsLoop_fixed_locals (lower : String → String) (conv : F64 → Int)
    (evs : List Event) :
    ∀ s : State,
      (wsLoop lower conv s evs).state.l.screenWMac = s.l.screenWMac ∧
      (wsLoop lower conv s evs).state.l.screenHMac = s.l.screenHMac ∧
      (wsLoop lower conv s evs).state.l.scrollScale = s.l.scrollScale ∧
      (wsLoop lower conv s evs).state.l.zoomScale = s.l.zoomScale := by
  induction evs with
  | nil => intro s; exact ⟨rfl, rfl, rfl, rfl⟩
  | cons ev rest ih =>
    intro s
    cases hr : ev.read with
    | readError => rw [wsLoop_readError lower conv s ev rest hr]; exact ⟨rfl, rfl, rfl, rfl⟩
    | undecodable => rw [wsLoop_undecodable lower conv s ev rest hr]; exact ih s
    | message m =>
      rw [wsLoop_message lower conv s ev rest m hr]
      have h1 := ih (dispatch lower conv s m ev.mouseX ev.mouseY).1
      have h2 := dispatch_fixed_locals lower conv s m ev.mouseX ev.mouseY
      exact ⟨h1.1.trans h2.1, h1.2.1.trans h2.2.1, h1.2.2.1.trans h2.2.2.1,
        h1.2.2.2.trans h2.2.2.2⟩

theorem wsLoop_uncalibrated (lower : String → String) (conv : F64 → Int)
    (evs : List Event) :
    ∀ s : State, (∀ ev ∈ evs, ¬ Calibrates lower ev) →
      (wsLoop lower conv s evs).state.l = s.l := by
  induction evs with
  | nil => intro s _; rfl
  | cons ev rest ih =>
    intro s h
    have hrest : ∀ e ∈ rest, ¬ Calibrates lower e := fun e he => h e (List.mem_cons_of_mem _ he)
    cases hr : ev.read with
    | readError => rw [wsLoop_readError lower conv s ev rest hr]
    | undecodable => rw [wsLoop_undecodable lower conv s ev rest hr]; exact ih s hrest
    | message m =>
      rw [wsLoop_message lower conv s ev rest m hr]
      have hev : ¬ Calibrates lower ev := h ev (List.mem_cons_self _ _)
      simp only [Calibrates, hr] at hev
      exact (ih _ hrest).trans (dispatch_moveScale lower conv s m ev.mouseX ev.mouseY hev)

theorem wsLoop_calls_released (lower : String → String) (conv : F64 → Int)
    (evs : List Event) :
    ∀ s : State, ctrlHeld (wsLoop lower conv s evs).calls = false := by
  induction evs with
  | nil => intro s; rfl
  | cons ev rest ih =>
    intro s
    cases hr : ev.read with
    | readError => rw [wsLoop_readError lower conv s ev rest hr]; rfl
    | undecodable => rw [wsLoop_undecodable lower conv s ev rest hr]; exact ih s
    | message m =>
      rw [wsLoop_message lower conv s ev rest m hr]
      simp only [ctrlHeld, List.foldl_append, dispatch_calls_released]
      exact ih _

theorem wsLoop_ended (lower : String → String) (conv : F64 → Int) (evs : List Event) :
    ∀ s : State, (wsLoop lower conv s evs).ended = true ↔
      ∃ ev ∈ evs, ev.read = ReadResult.readError := by
  induction evs with
  | nil => intro s; simp [wsLoop]
  | cons ev rest ih =>
    intro s
    cases hr : ev.read with
    | readError =>
      rw [wsLoop_readError lower conv s ev rest hr]
      simp [hr]
    | undecodable =>
      rw [wsLoop_undecodable lower conv s ev rest hr, ih s]
      simp [hr]
    | message m =>
      rw [wsLoop_message lower conv s ev rest m hr]
      simp only [List.mem_cons, exists_eq_or_imp, hr, false_or, reduceCtorEq]
      exact ih _

theorem wsLoop_locals_indep (lower : String → String) (conv : F64 → Int)
    (evs : List Event) :
    ∀ s t : State, s.l = t.l →
      (wsLoop lower conv s evs).state.l = (wsLoop lower conv t evs).state.l ∧
      (wsLoop lower conv s evs).ended = (wsLoop lower conv t evs).ended := by
  induction evs with
  | nil => intro s t hl; exact ⟨hl, rfl⟩
  | cons ev rest ih =>
    intro s t hl
    cases hr : ev.read with
    | readError =>
      rw [wsLoop_readError lower conv s ev rest hr, wsLoop_readError lower conv t ev rest hr]
      exact ⟨hl, rfl⟩
    | undecodable =>
      rw [wsLoop_undecodable lower conv s ev rest hr,
        wsLoop_undecodable lower conv t ev rest hr]
      exact ih s t hl
    | message m =>
      rw [wsLoop_message lower conv s ev rest m hr, wsLoop_message lower conv t ev rest m hr]
      exact ih _ _ (dispatch_locals_indep lower conv s t m ev.mouseX ev.mouseY hl)

theorem wsLoop_calls_indep (lower : String → String) (conv : F64 → Int)
    (evs : List Event) :
    ∀ s t : State, s.l = t.l → (∀ ev ∈ evs, ¬ IsSwipe lower ev) →
      (wsLoop lower conv s evs).calls = (wsLoop lower conv t evs).calls := by
  induction evs with
  | nil => intro s t _ _; rfl
  | cons ev rest ih =>
    intro s t hl h
    have hrest : ∀ e ∈ rest, ¬ IsSwipe lower e := fun e he => h e (List.mem_cons_of_mem _ he)
    cases hr : ev.read with
    | readError =>
      rw [wsLoop_readError lower conv s ev rest hr, wsLoop_readError lower conv t ev rest hr]
    | undecodable =>
      rw [wsLoop_undecodable lower conv s ev rest hr,
        wsLoop_undecodable lower conv t ev rest hr]
      exact ih s t hl hrest
    | message m =>
      rw [wsLoop_message lower conv s ev rest m hr, wsLoop_message lower conv t ev rest m hr]
      have hev : ¬ IsSwipe lower ev := h ev (List.mem_cons_self _ _)
      simp only [IsSwipe, hr] at hev
      show _ ++ _ = _ ++ _
      rw [dispatch_calls_indep lower conv s t m ev.mouseX ev.mouseY hl hev,
        ih _ _ (dispatch_locals_indep lower conv s t m ev.mouseX ev.mouseY hl) hrest]

theorem wsLoop_same_acc (lower : String → String) (conv : F64 → Int) (evs : List Event) :
    ∀ s t : State, s.l = t.l → s.g.threeSwipeDX = t.g.threeSwipeDX →
      s.g.threeSwipeDY = t.g.threeSwipeDY →
      (wsLoop lower conv s evs).calls = (wsLoop lower conv t evs).calls ∧
      (wsLoop lower conv s evs).state.g.threeSwipeDX =
        (wsLoop lower conv t evs).state.g.threeSwipeDX ∧
      (wsLoop lower conv s evs).state.g.threeSwipeDY =
        (wsLoop lower conv t evs).state.g.threeSwipeDY := by
  induction evs with
  | nil => intro s t _ hx hy; exact ⟨rfl, hx, hy⟩
  | cons ev rest ih =>
    intro s t hl hx hy
    cases hr : ev.read with
    | readError =>
      rw [wsLoop_readError lower conv s ev rest hr, wsLoop_readError lower conv t ev rest hr]
      exact ⟨rfl, hx, hy⟩
    | undecodable =>
      rw [wsLoop_undecodable lower conv s ev rest hr,
        wsLoop_undecodable lower conv t ev rest hr]
      exact ih s t hl hx hy
    | message m =>
      rw [wsLoop_message lower conv s ev rest m hr, wsLoop_message lower conv t ev rest m hr]
      obtain ⟨hc, hx1, hy1⟩ :=
        dispatch_calls_same_acc lower conv s t m ev.mouseX ev.mouseY hl hx hy
      obtain ⟨ic, ix, iy⟩ :=
        ih _ _ (dispatch_locals_indep lower conv s t m ev.mouseX ev.mouseY hl) hx1 hy1
      refine ⟨?_, ix, iy⟩
      show _ ++ _ = _ ++ _
      rw [hc, ic]

theorem wsLoop_acc_nonswipe (lower : String → String) (conv : F64 → Int)
    (evs : List Event) :
    ∀ s : State, (∀ ev ∈ evs, ¬ IsSwipe lower ev) →
      (wsLoop lower conv s evs).state.g.threeSwipeDX = s.g.threeSwipeDX ∧
      (wsLoop lower conv s evs).state.g.threeSwipeDY = s.g.threeSwipeDY := by
  induction evs with
  | nil => intro s _; exact ⟨rfl, rfl⟩
  | cons ev rest ih =>
    intro s h
    have hrest : ∀ e ∈ rest, ¬ IsSwipe lower e := fun e he => h e (List.mem_cons_of_mem _ he)
    cases hr : ev.read with
    | readError => rw [wsLoop_readError lower conv s ev rest hr]; exact ⟨rfl, rfl⟩
    | undecodable => rw [wsLoop_undecodable lower conv s ev rest hr]; exact ih s hrest
    | message m =>
      rw [wsLoop_message lower conv s ev rest m hr]
      have hev : ¬ IsSwipe lower ev := h ev (List.mem_cons_self _ _)
      simp only [IsSwipe, hr] at hev
      obtain ⟨dx, dy⟩ := dispatch_acc_nonswipe lower conv s m ev.mouseX ev.mouseY hev
      obtain ⟨ix, iy⟩ := ih (dispatch lower conv s m ev.mouseX ev.mouseY).1 hrest
      exact ⟨ix.trans dx, iy.trans dy⟩

/-! ## Facts used by several statements -/

theorem within_iff (f : F64) : Within f ↔ ∃ q : ℚ, f = F64.fin q ∧ -5 ≤ q ∧ q ≤ 5 := by
  cases f with
  | fin q => simp [Within]
  | posInf => simp [Within]
  | negInf => simp [Within]
  | nan => simp [Within]

theorem truncQ_of_pos_lt {q : ℚ} (h0 : 0 < q) (h1 : q < 2 ^ 63) :
    Fits64 (truncQ q) ∧ 0 ≤ truncQ q ∧ (0 < truncQ q ↔ 1 ≤ q) := by
  rw [truncQ, if_pos h0.le]
  have hnn : 0 ≤ Int.floor q := Int.floor_nonneg.mpr h0.le
  have hlt : Int.floor q < 2 ^ 63 := by
    rw [Int.floor_lt]
    push_cast
    exact h1
  refine ⟨⟨?_, hlt⟩, hnn, Int.floor_pos⟩
  have : (-2 : Int) ^ 63 ≤ 0 := by norm_num
  omega

/-! ## The float64 model on known values -/

/-- The float64 nearest to 0.1 is `3602879701896397 / 2^55`. -/
theorem json_tenth : json (1 / 10) = F64.fin (3602879701896397 / 36028797018963968) := by
  decide!

/-- In float64, `0.1 + 0.2` is `0.30000000000000004`, that is `1351079888211149 / 2^52`. -/
theorem tenth_add_fifth :
    json (1 / 10) + json (2 / 10) = F64.fin (1351079888211149 / 4503599627370496) := by
  decide!

/-- The largest finite float64 is kept, and half a spacing above it rounds to infinity. -/
theorem round_at_overflow :
    F64.round (pow2 1024 - pow2 971) = F64.fin (pow2 1024 - pow2 971) ∧
      F64.round (pow2 1024 - pow2 970) = F64.posInf := by
  decide!

/-- The least subnormal is kept, half of it rounds to zero. -/
theorem round_at_underflow :
    F64.round (pow2 (-1074)) = F64.fin (pow2 (-1074)) ∧
      F64.round (pow2 (-1075)) = F64.fin 0 := by
  decide!

/-! ## Calibration -/

/-- C1. Calibration is all-or-nothing: a `deviceinfo` message with at least one of the
four dimensions not strictly positive leaves the whole state (so every calibration
field: the stored dimensions and the move scales) as it was, issues no host call, and
the loop goes on. -/
theorem deviceinfo_rejected_unchanged (lower : String → String) (conv : F64 → Int)
    (s : State) (m : Message) (x y : Int) (htype : lower m.MsgType = "deviceinfo")
    (hbad : ¬ (m.TouchpadWidth > F64.fin 0) ∨ ¬ (m.TouchpadHeight > F64.fin 0) ∨
      ¬ (m.ScreenWidth > F64.fin 0) ∨ ¬ (m.ScreenHeight > F64.fin 0)) :
    iteration lower conv s ⟨ReadResult.message m, x, y⟩ = some (s, []) := by
  rw [iteration_message, dispatch_deviceinfo htype, deviceinfo, if_neg]
  rintro ⟨h1, h2, h3, h4⟩
  rcases hbad with h | h | h | h
  · exact h h1
  · exact h h2
  · exact h h3
  · exact h h4

/-- C1, on concrete inputs: on a calibrated connection, a `deviceinfo` message with
touchpad width 0 and one with a negative screen height change nothing. -/
theorem deviceinfo_rejected_unchanged_witness :
    iteration asciiLower convAmd64 (calibratedState 1000 1600)
        ⟨ReadResult.message (deviceinfoMessage "deviceinfo" 0 700 900 1500), 0, 0⟩ =
      some (calibratedState 1000 1600, []) ∧
    iteration asciiLower convAmd64 (calibratedState 1000 1600)
        ⟨ReadResult.message (deviceinfoMessage "DEVICEINFO" 400 700 900 (-1)), 0, 0⟩ =
      some (calibratedState 1000 1600, []) :=
  ⟨deviceinfo_rejected_unchanged asciiLower convAmd64 (calibratedState 1000 1600)
      (deviceinfoMessage "deviceinfo" 0 700 900 1500) 0 0 (by decide) (by decide!),
   deviceinfo_rejected_unchanged asciiLower convAmd64 (calibratedState 1000 1600)
      (deviceinfoMessage "DEVICEINFO" 400 700 900 (-1)) 0 0 (by decide) (by decide!)⟩

/-- C2 fails as stated: on a host screen 1920 wide, the applied `deviceinfo` message
with touchpad width 352 stores as `moveScaleX` the float64 `6141272219141585 / 2^50`,
which is below `1920 / 352`; a following `move` with `dx = 11` then goes 59 to the
right, where `11 * (1920 / 352) = 60`. -/
theorem move_scale_exact_counterexample :
    (wsLoop asciiLower convAmd64 (startState 1920 1080 5)
        [{ read := ReadResult.message (deviceinfoMessage "deviceinfo" 352 640 800 1400) }]
      ).state.l.moveScaleX = F64.fin (6141272219141585 / 1125899906842624) ∧
    (6141272219141585 / 1125899906842624 : ℚ) < 1920 / 352 ∧
    (wsLoop asciiLower convAmd64 (startState 1920 1080 5)
        [{ read := ReadResult.message (deviceinfoMessage "deviceinfo" 352 640 800 1400) },
         deltaEvent "move" 11 0]).calls =
      [HostCall.MoveMouseSmooth 59 0 (F64.fin (1 / 2)) (F64.fin (1 / 2))] ∧
    truncQ (11 * (1920 / 352)) = 60 := by
  decide!

/-- C2, amended. A `deviceinfo` message with four strictly positive dimensions issues
no host call and sets each move scale to the float64 quotient of the host screen size
(converted to float64) by the message's touchpad dimension: the exact quotient rounded
to the nearest float64. The scale is the exact quotient whenever the host screen size
and that quotient are float64 values. -/
theorem deviceinfo_applied_scale (lower : String → String) (conv : F64 → Int) (s : State)
    (m : Message) (x y : Int) (htype : lower m.MsgType = "deviceinfo")
    (hpos : m.TouchpadWidth > F64.fin 0 ∧ m.TouchpadHeight > F64.fin 0 ∧
      m.ScreenWidth > F64.fin 0 ∧ m.ScreenHeight > F64.fin 0) :
    ∃ s1 : State, iteration lower conv s ⟨ReadResult.message m, x, y⟩ = some (s1, []) ∧
      s1.l.moveScaleX = F64.ofInt s.l.screenWMac / m.TouchpadWidth ∧
      s1.l.moveScaleY = F64.ofInt s.l.screenHMac / m.TouchpadHeight ∧
      (∀ tw : ℚ, m.TouchpadWidth = F64.fin tw →
        F64.round (s.l.screenWMac : ℚ) = F64.fin (s.l.screenWMac : ℚ) →
        F64.round ((s.l.screenWMac : ℚ) / tw) = F64.fin ((s.l.screenWMac : ℚ) / tw) →
        s1.l.moveScaleX = F64.fin ((s.l.screenWMac : ℚ) / tw)) ∧
      (∀ th : ℚ, m.TouchpadHeight = F64.fin th →
        F64.round (s.l.screenHMac : ℚ) = F64.fin (s.l.screenHMac : ℚ) →
        F64.round ((s.l.screenHMac : ℚ) / th) = F64.fin ((s.l.screenHMac : ℚ) / th) →
        s1.l.moveScaleY = F64.fin ((s.l.screenHMac : ℚ) / th)) := by
  rw [iteration_message, dispatch_deviceinfo htype, deviceinfo, if_pos hpos]
  refine ⟨_, rfl, rfl, rfl, ?_, ?_⟩
  · intro tw htw hw hq
    have h0 : tw ≠ 0 := by
      have h1 := hpos.1
      rw [htw] at h1
      exact ne_of_gt ((F64.lt_fin 0 tw).mp h1)
    show F64.ofInt s.l.screenWMac / m.TouchpadWidth = _
    rw [htw, F64.ofInt, hw, F64.div_fin _ _ h0, hq]
  · intro th hth hh hq
    have h0 : th ≠ 0 := by
      have h1 := hpos.2.1
      rw [hth] at h1
      exact ne_of_gt ((F64.lt_fin 0 th).mp h1)
    show F64.ofInt s.l.screenHMac / m.TouchpadHeight = _
    rw [hth, F64.ofInt, hh, F64.div_fin _ _ h0, hq]

/-- C2, amended, on concrete inputs: touchpad 500 by 800 on a host screen of 2000 by
2400 gives move scales exactly 4 and 3, and no host call. -/
theorem deviceinfo_applied_scale_witness :
    ∃ s1 : State,
      iteration asciiLower convAmd64 freshState
          ⟨ReadResult.message (deviceinfoMessage "deviceinfo" 500 800 1000 1600), 0, 0⟩ =
        some (s1, []) ∧
      s1.l.moveScaleX = F64.fin 4 ∧ s1.l.moveScaleY = F64.fin 3 := by
  obtain ⟨s1, h, -, -, hx, hy⟩ :=
    deviceinfo_applied_scale asciiLower convAmd64 freshState
      (deviceinfoMessage "deviceinfo" 500 800 1000 1600) 0 0 (by decide) (by decide!)
  exact ⟨s1, h, (hx 500 (by decide!) (by decide!) (by decide!)).trans (by decide!),
    (hy 800 (by decide!) (by decide!) (by decide!)).trans (by decide!)⟩

/-! ## Three-finger swipe -/

/-- C3 fails as stated: the accumulator 5 is reached by a `threeswipe` with `dx = 5`
that fires nothing; a further `threeswipe` with `dx = 2^-60`, a float64 value, gives
the exact total `5 + 2^-60 > 5`, and the handler issues no call, because the float64
sum is 5. -/
theorem swipe_exact_sum_counterexample :
    (wsLoop asciiLower convAmd64 freshState [swipeEvent 5 0]).state.g.threeSwipeDX =
      F64.fin 5 ∧
    json (pow2 (-60)) = F64.fin (pow2 (-60)) ∧
    (5 : ℚ) + pow2 (-60) > 5 ∧
    (wsLoop asciiLower convAmd64 freshState
      [swipeEvent 5 0, swipeEvent (pow2 (-60)) 0]).calls = [] ∧
    (wsLoop asciiLower convAmd64 freshState
      [swipeEvent 5 0, swipeEvent (pow2 (-60)) 0]).state.g.threeSwipeDX = F64.fin 5 := by
  decide!

/-- C3, amended. A `threeswipe` message issues at most one key tap, chosen from the new
totals `X = threeSwipeDX + dx`, `Y = threeSwipeDY + dy`, each a float64 sum (the exact
sum rounded to the nearest float64), with the horizontal axis first: right if `X > 5`,
else left if `X < -5`, else down if `Y > 5`, else up if `Y < -5`, else nothing. When
the exact sums are float64 values, the choice is the same chain over the exact sums. -/
theorem threeswipe_one_tap_horizontal_first (lower : String → String) (conv : F64 → Int)
    (s : State) (m : Message) (x y : Int) (htype : lower m.MsgType = "threeswipe") :
    ∃ (s1 : State) (calls : List HostCall),
      iteration lower conv s ⟨ReadResult.message m, x, y⟩ = some (s1, calls) ∧
      calls =
        (if s.g.threeSwipeDX + m.Dx > F64.fin 5 then [HostCall.KeyTap "right" ["ctrl"]]
         else if s.g.threeSwipeDX + m.Dx < F64.fin (-5) then [HostCall.KeyTap "left" ["ctrl"]]
         else if s.g.threeSwipeDY + m.Dy > F64.fin 5 then [HostCall.KeyTap "down" ["ctrl"]]
         else if s.g.threeSwipeDY + m.Dy < F64.fin (-5) then [HostCall.KeyTap "up" ["ctrl"]]
         else []) ∧
      calls.length ≤ 1 ∧
      (∀ ax dx ay dy : ℚ, s.g.threeSwipeDX = F64.fin ax → m.Dx = F64.fin dx →
        s.g.threeSwipeDY = F64.fin ay → m.Dy = F64.fin dy →
        F64.round (ax + dx) = F64.fin (ax + dx) → F64.round (ay + dy) = F64.fin (ay + dy) →
        calls =
          (if ax + dx > 5 then [HostCall.KeyTap "right" ["ctrl"]]
           else if ax + dx < -5 then [HostCall.KeyTap "left" ["ctrl"]]
           else if ay + dy > 5 then [HostCall.KeyTap "down" ["ctrl"]]
           else if ay + dy < -5 then [HostCall.KeyTap "up" ["ctrl"]]
           else [])) := by
  refine ⟨(threeswipe s m).1, (threeswipe s m).2, ?_, threeswipe_calls s m, ?_, ?_⟩
  · rw [iteration_message, dispatch_threeswipe htype]
  · rw [threeswipe_calls]
    split_ifs <;> simp
  · intro ax dx ay dy hax hdx hay hdy hx hy
    rw [threeswipe_calls, hax, hdx, hay, hdy, F64.add_fin, F64.add_fin, hx, hy]
    simp only [gt_iff_lt, F64.lt_fin]

/-- C3, amended, on concrete inputs: totals `(6, 6)` fire the tap for `right` only, and
`ThreeSwipe` with `dx = -6`, `dy = 0` on a zero accumulator fires the tap for `left`. -/
theorem threeswipe_one_tap_horizontal_first_witness :
    (∃ (s1 : State) (calls : List HostCall),
      iteration asciiLower convAmd64 freshState (deltaEvent "threeswipe" 6 6) =
        some (s1, calls) ∧
      calls = [HostCall.KeyTap "right" ["ctrl"]] ∧ calls.length ≤ 1) ∧
    (∃ (s1 : State) (calls : List HostCall),
      iteration asciiLower convAmd64 freshState (deltaEvent "ThreeSwipe" (-6) 0) =
        some (s1, calls) ∧
      calls = [HostCall.KeyTap "left" ["ctrl"]] ∧ calls.length ≤ 1) := by
  constructor
  · obtain ⟨s1, calls, h1, h2, h3, -⟩ :=
      threeswipe_one_tap_horizontal_first asciiLower convAmd64 freshState
        { MsgType := "threeswipe", Dx := json 6, Dy := json 6 } 0 0 (by decide)
    exact ⟨s1, calls, h1, h2.trans (by decide!), h3⟩
  · obtain ⟨s1, calls, h1, h2, h3, -⟩ :=
      threeswipe_one_tap_horizontal_first asciiLower convAmd64 freshState
        { MsgType := "ThreeSwipe", Dx := json (-6), Dy := json 0 } 0 0 (by decide)
    exact ⟨s1, calls, h1, h2.trans (by decide!), h3⟩

/-- C4 fails as stated: `threeswipe` messages with `dx = 0.1` and then `dx = 0.2` fire
nothing, and the accumulator afterwards is the float64 `1351079888211149 / 2^52`, not
the prior value plus `dx`: that sum is smaller. -/
theorem accumulator_exact_sum_counterexample :
    (wsLoop asciiLower convAmd64 freshState
      [swipeEvent (1 / 10) 0, swipeEvent (2 / 10) 0]).calls = [] ∧
    (wsLoop asciiLower convAmd64 freshState [swipeEvent (1 / 10) 0]).state.g.threeSwipeDX =
      json (1 / 10) ∧
    (wsLoop asciiLower convAmd64 freshState
      [swipeEvent (1 / 10) 0, swipeEvent (2 / 10) 0]).state.g.threeSwipeDX =
      F64.fin (1351079888211149 / 4503599627370496) ∧
    (json (1 / 10)).toRat + (json (2 / 10)).toRat < 1351079888211149 / 4503599627370496 := by
  decide!

/-- C4, amended. After a `threeswipe` message: if a call was issued both accumulators
are 0, and if none was issued they are the float64 sums of the prior totals and
`(dx, dy)`, which are the exact sums when those are float64 values. Along any run of
the loop over decoded events that starts with both accumulators 0, whatever the
connection's locals, both accumulators end finite and within `[-5, 5]`; and one
iteration of any connection on a decoded event keeps them so. -/
theorem accumulator_reset_invariant (lower : String → String) (conv : F64 → Int) :
    (∀ (s : State) (m : Message) (x y : Int), lower m.MsgType = "threeswipe" →
      ∃ (s1 : State) (calls : List HostCall),
        iteration lower conv s ⟨ReadResult.message m, x, y⟩ = some (s1, calls) ∧
        (calls ≠ [] → s1.g.threeSwipeDX = F64.fin 0 ∧ s1.g.threeSwipeDY = F64.fin 0) ∧
        (calls = [] → s1.g.threeSwipeDX = s.g.threeSwipeDX + m.Dx ∧
          s1.g.threeSwipeDY = s.g.threeSwipeDY + m.Dy) ∧
        (calls = [] → ∀ ax dx ay dy : ℚ, s.g.threeSwipeDX = F64.fin ax → m.Dx = F64.fin dx →
          s.g.threeSwipeDY = F64.fin ay → m.Dy = F64.fin dy →
          F64.round (ax + dx) = F64.fin (ax + dx) → F64.round (ay + dy) = F64.fin (ay + dy) →
          s1.g.threeSwipeDX = F64.fin (ax + dx) ∧ s1.g.threeSwipeDY = F64.fin (ay + dy))) ∧
    (∀ (g : Globals) (l : Locals) (evs : List Event),
      g.threeSwipeDX = F64.fin 0 → g.threeSwipeDY = F64.fin 0 → (∀ ev ∈ evs, ev.Decoded) →
        ∃ qx qy : ℚ,
          (wsLoop lower conv ⟨g, l⟩ evs).state.g.threeSwipeDX = F64.fin qx ∧
          (wsLoop lower conv ⟨g, l⟩ evs).state.g.threeSwipeDY = F64.fin qy ∧
          -5 ≤ qx ∧ qx ≤ 5 ∧ -5 ≤ qy ∧ qy ≤ 5) ∧
    (∀ (s s1 : State) (ev : Event) (calls : List HostCall) (ax ay : ℚ),
      s.g.threeSwipeDX = F64.fin ax → s.g.threeSwipeDY = F64.fin ay →
      (-5 ≤ ax ∧ ax ≤ 5 ∧ -5 ≤ ay ∧ ay ≤ 5) → ev.Decoded →
      iteration lower conv s ev = some (s1, calls) →
        ∃ qx qy : ℚ, s1.g.threeSwipeDX = F64.fin qx ∧ s1.g.threeSwipeDY = F64.fin qy ∧
          -5 ≤ qx ∧ qx ≤ 5 ∧ -5 ≤ qy ∧ qy ≤ 5) := by
  refine ⟨?_, ?_, ?_⟩
  · intro s m x y htype
    refine ⟨(threeswipe s m).1, (threeswipe s m).2, ?_, threeswipe_fired s m,
      threeswipe_quiet s m, ?_⟩
    · rw [iteration_message, dispatch_threeswipe htype]
    · intro hc ax dx ay dy hax hdx hay hdy hx hy
      obtain ⟨ex, ey⟩ := threeswipe_quiet s m hc
      rw [ex, ey, hax, hdx, hay, hdy, F64.add_fin, F64.add_fin, hx, hy]
      exact ⟨rfl, rfl⟩
  · intro g l evs hx hy hd
    have h0 : AccWithin (⟨g, l⟩ : State).g := by
      show Within g.threeSwipeDX ∧ Within g.threeSwipeDY
      rw [hx, hy]
      exact ⟨within_zero, within_zero⟩
    obtain ⟨wx, wy⟩ := wsLoop_within lower conv evs ⟨g, l⟩ h0 hd
    obtain ⟨qx, ex, bx⟩ := (within_iff _).mp wx
    obtain ⟨qy, ey, by1⟩ := (within_iff _).mp wy
    exact ⟨qx, qy, ex, ey, bx.1, bx.2, by1.1, by1.2⟩
  · intro s s1 ev calls ax ay hax hay hb hd hstep
    have h0 : AccWithin s.g := by
      show Within s.g.threeSwipeDX ∧ Within s.g.threeSwipeDY
      rw [hax, hay]
      exact ⟨⟨hb.1, hb.2.1⟩, ⟨hb.2.2.1, hb.2.2.2⟩⟩
    obtain ⟨wx, wy⟩ := iteration_within lower conv s s1 ev calls h0 hd hstep
    obtain ⟨qx, ex, bx⟩ := (within_iff _).mp wx
    obtain ⟨qy, ey, by1⟩ := (within_iff _).mp wy
    exact ⟨qx, qy, ex, ey, bx.1, bx.2, by1.1, by1.2⟩

/-- C4, amended, on the trace (3,0), (3,0), (0,0) from the initial state: no call and
accumulator (3,0); then the tap for `right` and accumulator (0,0); then no further
call; and the bounds of the theorem at the end of the trace. -/
theorem accumulator_reset_invariant_witness :
    ((wsLoop asciiLower convAmd64 freshState [swipeEvent 3 0]).calls = [] ∧
     (wsLoop asciiLower convAmd64 freshState [swipeEvent 3 0]).state.g.threeSwipeDX =
        F64.fin 3 ∧
     (wsLoop asciiLower convAmd64 freshState [swipeEvent 3 0]).state.g.threeSwipeDY =
        F64.fin 0) ∧
    ((wsLoop asciiLower convAmd64 freshState [swipeEvent 3 0, swipeEvent 3 0]).calls =
        [HostCall.KeyTap "right" ["ctrl"]] ∧
     (wsLoop asciiLower convAmd64 freshState
        [swipeEvent 3 0, swipeEvent 3 0]).state.g.threeSwipeDX = F64.fin 0 ∧
     (wsLoop asciiLower convAmd64 freshState
        [swipeEvent 3 0, swipeEvent 3 0]).state.g.threeSwipeDY = F64.fin 0) ∧
    (wsLoop asciiLower convAmd64 freshState
        [swipeEvent 3 0, swipeEvent 3 0, swipeEvent 0 0]).calls =
      [HostCall.KeyTap "right" ["ctrl"]] ∧
    (∃ qx qy : ℚ,
      (wsLoop asciiLower convAmd64 freshState
        [swipeEvent 3 0, swipeEvent 3 0, swipeEvent 0 0]).state.g.threeSwipeDX = F64.fin qx ∧
      (wsLoop asciiLower convAmd64 freshState
        [swipeEvent 3 0, swipeEvent 3 0, swipeEvent 0 0]).state.g.threeSwipeDY = F64.fin qy ∧
      -5 ≤ qx ∧ qx ≤ 5 ∧ -5 ≤ qy ∧ qy ≤ 5) :=
  ⟨by decide!, by decide!, by decide!,
    (accumulator_reset_invariant asciiLower convAmd64).2.1 initGlobals
      (sessionInit 2000 2400 (json 5))
      [swipeEvent 3 0, swipeEvent 3 0, swipeEvent 0 0] rfl rfl (by decide!)⟩

/-! ## Connections of one process -/

/-- C5 fails as stated: in a fresh process, a `threeswipe` with `dx = 3` handled by
connection A makes the `threeswipe` with `dx = 3` of a fresh connection B fire the
tap for `right`; had A handled nothing, B's message fires nothing and leaves the
accumulator at 3. -/
theorem session_isolation_counterexample :
    (twoSessions asciiLower convAmd64 initGlobals (sessionInit 2000 2400 (json 5))
        (sessionInit 2000 2400 (json 5)) [swipeEvent 3 0] [swipeEvent 3 0]).calls =
      [HostCall.KeyTap "right" ["ctrl"]] ∧
    (twoSessions asciiLower convAmd64 initGlobals (sessionInit 2000 2400 (json 5))
        (sessionInit 2000 2400 (json 5)) [] [swipeEvent 3 0]).calls = [] ∧
    (twoSessions asciiLower convAmd64 initGlobals (sessionInit 2000 2400 (json 5))
        (sessionInit 2000 2400 (json 5)) [swipeEvent 3 0]
        [swipeEvent 3 0]).state.g.threeSwipeDX = F64.fin 0 ∧
    (twoSessions asciiLower convAmd64 initGlobals (sessionInit 2000 2400 (json 5))
        (sessionInit 2000 2400 (json 5)) []
        [swipeEvent 3 0]).state.g.threeSwipeDX = F64.fin 3 :=
  ⟨by decide!, by decide!, by decide!, by decide!⟩

/-- C5, amended. Of the state a connection B uses, only its locals are its own. For
every sequence of events handled by a connection A before B's: B's locals (the move
scales among them) and whether B's loop ended are the same as if A had handled
nothing; B's host calls are the same if none of B's events is a `threeswipe`; and B's
host calls and resulting accumulator are the same if A left the accumulator as it
found it, which is so when none of A's events is a `threeswipe`. -/
theorem session_isolation_locals_only (lower : String → String) (conv : F64 → Int)
    (g : Globals) (lA lB : Locals) (evA evB : List Event) :
    ((twoSessions lower conv g lA lB evA evB).state.l =
        (twoSessions lower conv g lA lB [] evB).state.l ∧
      (twoSessions lower conv g lA lB evA evB).ended =
        (twoSessions lower conv g lA lB [] evB).ended) ∧
    ((∀ ev ∈ evB, ¬ IsSwipe lower ev) →
      (twoSessions lower conv g lA lB evA evB).calls =
        (twoSessions lower conv g lA lB [] evB).calls) ∧
    ((wsLoop lower conv ⟨g, lA⟩ evA).state.g.threeSwipeDX = g.threeSwipeDX →
      (wsLoop lower conv ⟨g, lA⟩ evA).state.g.threeSwipeDY = g.threeSwipeDY →
      (twoSessions lower conv g lA lB evA evB).calls =
        (twoSessions lower conv g lA lB [] evB).calls ∧
      (twoSessions lower conv g lA lB evA evB).state.g.threeSwipeDX =
        (twoSessions lower conv g lA lB [] evB).state.g.threeSwipeDX ∧
      (twoSessions lower conv g lA lB evA evB).state.g.threeSwipeDY =
        (twoSessions lower conv g lA lB [] evB).state.g.threeSwipeDY) ∧
    ((∀ ev ∈ evA, ¬ IsSwipe lower ev) →
      (twoSessions lower conv g lA lB evA evB).calls =
        (twoSessions lower conv g lA lB [] evB).calls ∧
      (twoSessions lower conv g lA lB evA evB).state.g.threeSwipeDX =
        (twoSessions lower conv g lA lB [] evB).state.g.threeSwipeDX ∧
      (twoSessions lower conv g lA lB evA evB).state.g.threeSwipeDY =
        (twoSessions lower conv g lA lB [] evB).state.g.threeSwipeDY) := by
  refine ⟨?_, ?_, ?_, ?_⟩
  · exact wsLoop_locals_indep lower conv evB _ _ rfl
  · intro h
    exact wsLoop_calls_indep lower conv evB _ _ rfl h
  · intro hx hy
    exact wsLoop_same_acc lower conv evB _ _ rfl hx hy
  · intro h
    obtain ⟨hx, hy⟩ := wsLoop_acc_nonswipe lower conv evA ⟨g, lA⟩ h
    exact wsLoop_same_acc lower conv evB _ _ rfl hx hy

/-- C5, amended, on concrete inputs: A handles a `deviceinfo` and a `move`, then B
handles two `threeswipe` messages with `dx = 3`; B fires the tap for `right` once, as
it does when A handles nothing. -/
theorem session_isolation_locals_only_witness :
    (twoSessions asciiLower convAmd64 initGlobals (sessionInit 2000 2400 (json 5))
        (sessionInit 2000 2400 (json 5))
        [{ read := ReadResult.message (deviceinfoMessage "deviceinfo" 400 700 900 1500) },
         deltaEvent "move" 1 0]
        [swipeEvent 3 0, swipeEvent 3 0]).calls =
      (twoSessions asciiLower convAmd64 initGlobals (sessionInit 2000 2400 (json 5))
        (sessionInit 2000 2400 (json 5)) [] [swipeEvent 3 0, swipeEvent 3 0]).calls ∧
    (twoSessions asciiLower convAmd64 initGlobals (sessionInit 2000 2400 (json 5))
        (sessionInit 2000 2400 (json 5)) [] [swipeEvent 3 0, swipeEvent 3 0]).calls =
      [HostCall.KeyTap "right" ["ctrl"]] :=
  ⟨((session_isolation_locals_only asciiLower convAmd64 initGlobals
      (sessionInit 2000 2400 (json 5)) (sessionInit 2000 2400 (json 5))
      [{ read := ReadResult.message (deviceinfoMessage "deviceinfo" 400 700 900 1500) },
       deltaEvent "move" 1 0]
      [swipeEvent 3 0, swipeEvent 3 0]).2.2.2 (by decide!)).1,
   by decide!⟩

/-! ## Pointer motion, scroll and zoom -/

/-- C6 fails as stated. On a connection with `moveScaleY = 3`, a `move` with
`dy = 0.3333333333333333` at pointer (100, 200) goes to (100, 201): the float64 product
is 1, while the exact product of the two float64 values truncates to 0. And with
scale 1 at pointer (2000, 0), a `move` with `dx = 2^63 - 1024` goes to
`-2^63 + 976`, not to `2000 + (2^63 - 1024)`: the 64-bit sum wraps. -/
theorem move_exact_product_counterexample :
    (calibratedState 1000 1600).l.moveScaleY = F64.fin 3 ∧
    iteration asciiLower convAmd64 (calibratedState 1000 1600)
        { read := ReadResult.message
            { MsgType := "move", Dy := json (3333333333333333 / 10000000000000000) },
          mouseX := 100, mouseY := 200 } =
      some (calibratedState 1000 1600,
        [HostCall.MoveMouseSmooth 100 201 (F64.fin (1 / 2)) (F64.fin (1 / 2))]) ∧
    truncQ ((json (3333333333333333 / 10000000000000000)).toRat * 3) = 0 ∧
    iteration asciiLower convAmd64 freshState
        { read := ReadResult.message { MsgType := "move", Dx := json (2 ^ 63 - 1024) },
          mouseX := 2000, mouseY := 0 } =
      some (freshState,
        [HostCall.MoveMouseSmooth (-2 ^ 63 + 976) 0 (F64.fin (1 / 2)) (F64.fin (1 / 2))]) ∧
    json (2 ^ 63 - 1024) = F64.fin (2 ^ 63 - 1024) := by
  decide!

/-- C6, amended. A `move` message issues exactly one host call, a smooth move to the
reported pointer position plus, with 64-bit wrapping, the conversions to `int` of the
float64 products of the deltas and the connection's move scales, and leaves the whole
state as it was. When the exact products are float64 values and the offsets and the
sums fit 64 bits, the target is the position plus the exact products truncated toward
zero (`-3/2` gives `-1`). In a connection whose events so far include no `deviceinfo`
message that passed the guard, the scales are `(1, 1)` and the offsets of a decoded
message are the conversions of the deltas themselves. -/
theorem move_relative_truncated (lower : String → String) (conv : F64 → Int) :
    (∀ (s : State) (m : Message) (x y : Int), lower m.MsgType = "move" →
      iteration lower conv s ⟨ReadResult.message m, x, y⟩ =
        some (s, [HostCall.MoveMouseSmooth
          (wrap64 (x + goInt conv (m.Dx * s.l.moveScaleX)))
          (wrap64 (y + goInt conv (m.Dy * s.l.moveScaleY)))
          (F64.fin (1 / 2)) (F64.fin (1 / 2))])) ∧
    (∀ (s : State) (m : Message) (x y : Int) (dx sx dy sy : ℚ),
      lower m.MsgType = "move" →
      m.Dx = F64.fin dx → s.l.moveScaleX = F64.fin sx →
      m.Dy = F64.fin dy → s.l.moveScaleY = F64.fin sy →
      F64.round (dx * sx) = F64.fin (dx * sx) → F64.round (dy * sy) = F64.fin (dy * sy) →
      Fits64 (truncQ (dx * sx)) → Fits64 (truncQ (dy * sy)) →
      Fits64 (x + truncQ (dx * sx)) → Fits64 (y + truncQ (dy * sy)) →
      iteration lower conv s ⟨ReadResult.message m, x, y⟩ =
        some (s, [HostCall.MoveMouseSmooth (x + truncQ (dx * sx)) (y + truncQ (dy * sy))
          (F64.fin (1 / 2)) (F64.fin (1 / 2))])) ∧
    (truncQ (-3 / 2) = -1 ∧
      (∀ f : ℚ, 0 ≤ f → (truncQ f : ℚ) ≤ f ∧ f < (truncQ f : ℚ) + 1) ∧
      (∀ f : ℚ, f ≤ 0 → f ≤ (truncQ f : ℚ) ∧ (truncQ f : ℚ) - 1 < f)) ∧
    (∀ (g : Globals) (screenW screenH : Int) (scaleFlag : F64) (evs : List Event)
      (m : Message) (x y : Int),
      (∀ ev ∈ evs, ¬ Calibrates lower ev) → lower m.MsgType = "move" → m.Decoded →
      (wsLoop lower conv ⟨g, sessionInit screenW screenH scaleFlag⟩ evs).state.l.moveScaleX =
        F64.fin 1 ∧
      (wsLoop lower conv ⟨g, sessionInit screenW screenH scaleFlag⟩ evs).state.l.moveScaleY =
        F64.fin 1 ∧
      iteration lower conv (wsLoop lower conv ⟨g, sessionInit screenW screenH scaleFlag⟩ evs).state
          ⟨ReadResult.message m, x, y⟩ =
        some ((wsLoop lower conv ⟨g, sessionInit screenW screenH scaleFlag⟩ evs).state,
          [HostCall.MoveMouseSmooth (wrap64 (x + goInt conv m.Dx))
            (wrap64 (y + goInt conv m.Dy)) (F64.fin (1 / 2)) (F64.fin (1 / 2))])) := by
  refine ⟨?_, ?_, ⟨by decide!, fun f h => truncQ_nonneg h, fun f h => truncQ_nonpos h⟩, ?_⟩
  · intro s m x y htype
    rw [iteration_message, dispatch_move htype]
    rfl
  · intro s m x y dx sx dy sy htype hdx hsx hdy hsy hpx hpy hfx hfy hsumx hsumy
    rw [iteration_message, dispatch_move htype]
    simp only [move, hdx, hsx, hdy, hsy, F64.mul_fin, hpx, hpy, goInt_fin_of_fits conv _ hfx,
      goInt_fin_of_fits conv _ hfy, wrap64_of_fits _ hsumx, wrap64_of_fits _ hsumy]
  · intro g screenW screenH scaleFlag evs m x y hcal htype hd
    have hl := wsLoop_uncalibrated lower conv evs ⟨g, sessionInit screenW screenH scaleFlag⟩
      hcal
    have hx : (wsLoop lower conv ⟨g, sessionInit screenW screenH scaleFlag⟩
        evs).state.l.moveScaleX = F64.fin 1 := by rw [hl]; rfl
    have hy : (wsLoop lower conv ⟨g, sessionInit screenW screenH scaleFlag⟩
        evs).state.l.moveScaleY = F64.fin 1 := by rw [hl]; rfl
    refine ⟨hx, hy, ?_⟩
    rw [iteration_message, dispatch_move htype]
    simp only [move, hx, hy, F64.mul_one_of_valid hd.1, F64.mul_one_of_valid hd.2.1]

/-- C6, amended, on concrete inputs: after an unknown message and a rejected
`deviceinfo`, a `move` by `(-3/2, 5/2)` at pointer `(10, 20)` goes to `(9, 22)`. -/
theorem move_relative_truncated_witness :
    iteration asciiLower convAmd64
        (wsLoop asciiLower convAmd64 freshState
          [{ read := ReadResult.message { MsgType := "hello" } },
           { read := ReadResult.message (deviceinfoMessage "deviceinfo" 500 0 0 0) }]).state
        ⟨ReadResult.message { MsgType := "Move", Dx := json (-3 / 2), Dy := json (5 / 2) },
          10, 20⟩ =
      some ((wsLoop asciiLower convAmd64 freshState
          [{ read := ReadResult.message { MsgType := "hello" } },
           { read := ReadResult.message (deviceinfoMessage "deviceinfo" 500 0 0 0) }]).state,
        [HostCall.MoveMouseSmooth (wrap64 (10 + goInt convAmd64 (json (-3 / 2))))
          (wrap64 (20 + goInt convAmd64 (json (5 / 2)))) (F64.fin (1 / 2))
          (F64.fin (1 / 2))]) ∧
    (wrap64 (10 + goInt convAmd64 (json (-3 / 2))) = 9 ∧
      wrap64 (20 + goInt convAmd64 (json (5 / 2))) = 22) :=
  ⟨((move_relative_truncated asciiLower convAmd64).2.2.2 initGlobals 2000 2400 (json 5)
      [{ read := ReadResult.message { MsgType := "hello" } },
       { read := ReadResult.message (deviceinfoMessage "deviceinfo" 500 0 0 0) }]
      { MsgType := "Move", Dx := json (-3 / 2), Dy := json (5 / 2) } 10 20
      (by decide!) (by decide) (by decide!)).2.2,
    by decide!, by decide!⟩

/-- C7 fails as stated: with `-scale 3`, a `scroll` with `dx = 0.3333333333333333`,
`dy = 0` issues `Scroll(1, 0)`, because the float64 product is 1; the exact products
of the float64 values truncate to `h = 0` and `v = 0`, for which the claim has no
host call. -/
theorem scroll_exact_product_counterexample :
    iteration asciiLower convAmd64 (startState 2000 2400 3)
        (deltaEvent "scroll" (3333333333333333 / 10000000000000000) 0) =
      some (startState 2000 2400 3, [HostCall.Scroll 1 0]) ∧
    truncQ ((json (3333333333333333 / 10000000000000000)).toRat * 3) = 0 ∧
    truncQ (-(json 0).toRat * 3) = 0 := by
  decide!

/-- C7, amended. A `scroll` message, with `h = int(dx * scrollScale)` and
`v = int(-dy * scrollScale)` computed as the handler does (float64 products, then the
conversion to `int`), issues exactly the host call `Scroll(h, v)` when `h` or `v` is not
0 and no host call when both are 0; with `dx = 0`, `dy = 0` and a finite scale it issues
none. The state is left as it was. When the exact products are float64 values whose
truncations fit 64 bits, `h` and `v` are the exact products truncated toward zero. -/
theorem scroll_only_when_nonzero (lower : String → String) (conv : F64 → Int) (s : State)
    (m : Message) (x y : Int) (htype : lower m.MsgType = "scroll") :
    ((goInt conv (m.Dx * s.l.scrollScale) ≠ 0 ∨ goInt conv (-m.Dy * s.l.scrollScale) ≠ 0) →
      iteration lower conv s ⟨ReadResult.message m, x, y⟩ =
        some (s, [HostCall.Scroll (goInt conv (m.Dx * s.l.scrollScale))
          (goInt conv (-m.Dy * s.l.scrollScale))])) ∧
    ((goInt conv (m.Dx * s.l.scrollScale) = 0 ∧ goInt conv (-m.Dy * s.l.scrollScale) = 0) →
      iteration lower conv s ⟨ReadResult.message m, x, y⟩ = some (s, [])) ∧
    (m.Dx = F64.fin 0 → m.Dy = F64.fin 0 → (∃ c : ℚ, s.l.scrollScale = F64.fin c) →
      iteration lower conv s ⟨ReadResult.message m, x, y⟩ = some (s, [])) ∧
    (∀ dx dy c : ℚ, m.Dx = F64.fin dx → m.Dy = F64.fin dy → s.l.scrollScale = F64.fin c →
      F64.round (dx * c) = F64.fin (dx * c) → F64.round (-dy * c) = F64.fin (-dy * c) →
      Fits64 (truncQ (dx * c)) → Fits64 (truncQ (-dy * c)) →
      goInt conv (m.Dx * s.l.scrollScale) = truncQ (dx * c) ∧
        goInt conv (-m.Dy * s.l.scrollScale) = truncQ (-dy * c)) := by
  rw [iteration_message, dispatch_scroll htype]
  refine ⟨?_, ?_, ?_, ?_⟩
  · intro h
    simp only [scroll]
    rw [if_pos h]
  · intro h
    simp only [scroll]
    rw [if_neg (by rw [not_or, not_not, not_not]; exact h)]
  · rintro hx hy ⟨c, hc⟩
    simp only [scroll, hx, hy, hc, F64.neg_fin, neg_zero, F64.zero_mul_fin, goInt_zero]
    rfl
  · intro dx dy c hx hy hc hpx hpy hfx hfy
    rw [hx, hy, hc, F64.neg_fin, F64.mul_fin, F64.mul_fin, hpx, hpy,
      goInt_fin_of_fits conv _ hfx, goInt_fin_of_fits conv _ hfy]
    exact ⟨rfl, rfl⟩

/-- C7, amended, on concrete inputs: with scale 5, `dx = 1/2`, `dy = 1` gives
`Scroll(2, -5)`; `dx = 1/8`, `dy = -1/8` gives no call; `dx = dy = 0` gives no call. -/
theorem scroll_only_when_nonzero_witness :
    iteration asciiLower convAmd64 freshState (deltaEvent "scroll" (1 / 2) 1) =
      some (freshState,
        [HostCall.Scroll (goInt convAmd64 (json (1 / 2) * json 5))
          (goInt convAmd64 (-json 1 * json 5))]) ∧
    iteration asciiLower convAmd64 freshState (deltaEvent "scroll" (1 / 8) (-1 / 8)) =
      some (freshState, []) ∧
    iteration asciiLower convAmd64 freshState (deltaEvent "scroll" 0 0) =
      some (freshState, []) ∧
    (goInt convAmd64 (json (1 / 2) * json 5) = 2 ∧ goInt convAmd64 (-json 1 * json 5) = -5) :=
  ⟨(scroll_only_when_nonzero asciiLower convAmd64 freshState
      { MsgType := "scroll", Dx := json (1 / 2), Dy := json 1 } 0 0 (by decide)).1
      (by decide!),
   (scroll_only_when_nonzero asciiLower convAmd64 freshState
      { MsgType := "scroll", Dx := json (1 / 8), Dy := json (-1 / 8) } 0 0 (by decide)).2.1
      (by decide!),
   (scroll_only_when_nonzero asciiLower convAmd64 freshState
      { MsgType := "scroll", Dx := json 0, Dy := json 0 } 0 0 (by decide)).2.2.1
      (by decide!) (by decide!) ⟨5, by decide!⟩,
   by decide!, by decide!⟩

/-- C8 fails as stated: with the default `-scale 5`, so `zoomScale = 5/2`, a `zoom`
with `delta = 1.2` issues `Scroll(0, -3)` between the two toggles, because the float64
product is -3; the exact product of the float64 values converts to -2. -/
theorem zoom_exact_product_counterexample :
    freshState.l.zoomScale = F64.fin (5 / 2) ∧
    iteration asciiLower convAmd64 freshState (zoomEvent (12 / 10)) =
      some (freshState, [HostCall.KeyToggle "ctrl" "down", HostCall.Scroll 0 (-3),
        HostCall.KeyToggle "ctrl" "up"]) ∧
    truncQ (-(json (12 / 10)).toRat * (5 / 2)) = -2 := by
  decide!

/-- C8, amended. A `zoom` message with `delta = 0` issues no host call; with `delta ≠ 0`
it issues exactly `KeyToggle(ctrl, down)`, `Scroll(0, int(-delta * zoomScale))`,
`KeyToggle(ctrl, up)` in that order, the scroll amount computed as the handler does
(float64 product, then the conversion to `int`); the state is left as it was. When the
exact product is a float64 value whose truncation fits 64 bits, the scroll amount is
the exact product truncated toward zero. Along a connection's run `zoomScale` is the
float64 quotient of the `-scale` flag by 2, and after the calls of any run `ctrl` is
released. -/
theorem zoom_three_calls_or_none (lower : String → String) (conv : F64 → Int) :
    (∀ (s : State) (m : Message) (x y : Int), lower m.MsgType = "zoom" →
      (m.Delta = F64.fin 0 →
        iteration lower conv s ⟨ReadResult.message m, x, y⟩ = some (s, [])) ∧
      (m.Delta ≠ F64.fin 0 → iteration lower conv s ⟨ReadResult.message m, x, y⟩ =
        some (s, [HostCall.KeyToggle "ctrl" "down",
          HostCall.Scroll 0 (goInt conv (-m.Delta * s.l.zoomScale)),
          HostCall.KeyToggle "ctrl" "up"])) ∧
      (∀ d z : ℚ, m.Delta = F64.fin d → s.l.zoomScale = F64.fin z →
        F64.round (-d * z) = F64.fin (-d * z) → Fits64 (truncQ (-d * z)) →
        goInt conv (-m.Delta * s.l.zoomScale) = truncQ (-d * z))) ∧
    (∀ (g : Globals) (screenW screenH : Int) (scaleFlag : F64) (evs : List Event),
      (wsLoop lower conv ⟨g, sessionInit screenW screenH scaleFlag⟩ evs).state.l.zoomScale =
        scaleFlag / F64.fin 2) ∧
    (∀ (s : State) (evs : List Event), ctrlHeld (wsLoop lower conv s evs).calls = false) := by
  refine ⟨?_, ?_, ?_⟩
  · intro s m x y htype
    rw [iteration_message, dispatch_zoom htype]
    refine ⟨?_, ?_, ?_⟩
    · intro h
      simp only [zoom]
      rw [if_neg (not_not.mpr h)]
    · intro h
      simp only [zoom]
      rw [if_pos h]
    · intro d z hd hz hp hf
      rw [hd, hz, F64.neg_fin, F64.mul_fin, hp, goInt_fin_of_fits conv _ hf]
  · intro g screenW screenH scaleFlag evs
    exact (wsLoop_fixed_locals lower conv evs ⟨g, sessionInit screenW screenH scaleFlag⟩).2.2.2
  · intro s evs
    exact wsLoop_calls_released lower conv evs s

/-- C8, amended, on concrete inputs: with `-scale 5`, `delta = 0` gives no call and
`delta = 1` gives `ctrl` down, `Scroll(0, int(-5/2))`, `ctrl` up, where
`int(-5/2) = -2`. -/
theorem zoom_three_calls_or_none_witness :
    iteration asciiLower convAmd64 freshState (zoomEvent 0) = some (freshState, []) ∧
    iteration asciiLower convAmd64 freshState
        ⟨ReadResult.message { MsgType := "Zoom", Delta := json 1 }, 0, 0⟩ =
      some (freshState,
        [HostCall.KeyToggle "ctrl" "down",
          HostCall.Scroll 0 (goInt convAmd64 (-json 1 * freshState.l.zoomScale)),
          HostCall.KeyToggle "ctrl" "up"]) ∧
    goInt convAmd64 (-json 1 * freshState.l.zoomScale) = -2 :=
  ⟨((zoom_three_calls_or_none asciiLower convAmd64).1 freshState
      { MsgType := "zoom", Delta := json 0 } 0 0 (by decide)).1 (by decide!),
   ((zoom_three_calls_or_none asciiLower convAmd64).1 freshState
      { MsgType := "Zoom", Delta := json 1 } 0 0 (by decide)).2.1 (by decide!),
   by decide!⟩

/-! ## Stored dimensions -/

/-- C9 fails as stated: a `deviceinfo` message whose four dimensions are strictly
positive, with screen dimensions `1/2`, is applied and stores `screenWidth = 0` and
`screenHeight = 0`. -/
theorem stored_screen_positive_counterexample :
    ((deviceinfoMessage "deviceinfo" 500 800 (1 / 2) (1 / 2)).TouchpadWidth > F64.fin 0 ∧
      (deviceinfoMessage "deviceinfo" 500 800 (1 / 2) (1 / 2)).TouchpadHeight > F64.fin 0 ∧
      (deviceinfoMessage "deviceinfo" 500 800 (1 / 2) (1 / 2)).ScreenWidth > F64.fin 0 ∧
      (deviceinfoMessage "deviceinfo" 500 800 (1 / 2) (1 / 2)).ScreenHeight > F64.fin 0) ∧
    iteration asciiLower convAmd64 freshState
        ⟨ReadResult.message (deviceinfoMessage "deviceinfo" 500 800 (1 / 2) (1 / 2)), 0, 0⟩ =
      some (calibratedState 0 0, []) ∧
    (calibratedState 0 0).g.screenWidth = 0 ∧ (calibratedState 0 0).g.screenHeight = 0 ∧
    ¬ (0 < (calibratedState 0 0).g.screenWidth) ∧
    ¬ (0 < (calibratedState 0 0).g.screenHeight) :=
  ⟨by decide!, by decide!, rfl, rfl, by decide, by decide⟩

/-- C9, amended. A `deviceinfo` message with four strictly positive dimensions stores
the message's touchpad dimensions, which are positive, and stores as screen dimensions
the conversions to `int` of the message's values: for a value below `2^63` this is the
value truncated toward zero, which is not negative and is strictly positive exactly
when the value is at least 1. -/
theorem deviceinfo_applied_stored (lower : String → String) (conv : F64 → Int) (s : State)
    (m : Message) (x y : Int) (htype : lower m.MsgType = "deviceinfo")
    (hpos : m.TouchpadWidth > F64.fin 0 ∧ m.TouchpadHeight > F64.fin 0 ∧
      m.ScreenWidth > F64.fin 0 ∧ m.ScreenHeight > F64.fin 0) :
    ∃ s1 : State, iteration lower conv s ⟨ReadResult.message m, x, y⟩ = some (s1, []) ∧
      (s1.g.touchpadWidth = m.TouchpadWidth ∧ s1.g.touchpadWidth > F64.fin 0) ∧
      (s1.g.touchpadHeight = m.TouchpadHeight ∧ s1.g.touchpadHeight > F64.fin 0) ∧
      (s1.g.screenWidth = goInt conv m.ScreenWidth ∧
        ∀ q : ℚ, m.ScreenWidth = F64.fin q → q < 2 ^ 63 →
          s1.g.screenWidth = truncQ q ∧ 0 ≤ s1.g.screenWidth ∧
            (0 < s1.g.screenWidth ↔ 1 ≤ q)) ∧
      (s1.g.screenHeight = goInt conv m.ScreenHeight ∧
        ∀ q : ℚ, m.ScreenHeight = F64.fin q → q < 2 ^ 63 →
          s1.g.screenHeight = truncQ q ∧ 0 ≤ s1.g.screenHeight ∧
            (0 < s1.g.screenHeight ↔ 1 ≤ q)) := by
  rw [iteration_message, dispatch_deviceinfo htype, deviceinfo, if_pos hpos]
  obtain ⟨h1, h2, h3, h4⟩ := hpos
  refine ⟨_, rfl, ⟨rfl, h1⟩, ⟨rfl, h2⟩, ⟨rfl, ?_⟩, ⟨rfl, ?_⟩⟩
  · intro q hq hlt
    have hq0 : 0 < q := by
      rw [hq] at h3
      exact (F64.lt_fin 0 q).mp h3
    obtain ⟨hf, hnn, hiff⟩ := truncQ_of_pos_lt hq0 hlt
    show goInt conv m.ScreenWidth = truncQ q ∧ 0 ≤ goInt conv m.ScreenWidth ∧
      (0 < goInt conv m.ScreenWidth ↔ 1 ≤ q)
    rw [hq, goInt_fin_of_fits conv q hf]
    exact ⟨rfl, hnn, hiff⟩
  · intro q hq hlt
    have hq0 : 0 < q := by
      rw [hq] at h4
      exact (F64.lt_fin 0 q).mp h4
    obtain ⟨hf, hnn, hiff⟩ := truncQ_of_pos_lt hq0 hlt
    show goInt conv m.ScreenHeight = truncQ q ∧ 0 ≤ goInt conv m.ScreenHeight ∧
      (0 < goInt conv m.ScreenHeight ↔ 1 ≤ q)
    rw [hq, goInt_fin_of_fits conv q hf]
    exact ⟨rfl, hnn, hiff⟩

/-- C9, amended, on concrete inputs: touchpad 500 by 800 and screen 1000 by 1/2 store
screen width 1000 and screen height 0. -/
theorem deviceinfo_applied_stored_witness :
    ∃ s1 : State,
      iteration asciiLower convAmd64 freshState
          ⟨ReadResult.message (deviceinfoMessage "DeviceInfo" 500 800 1000 (1 / 2)), 0, 0⟩ =
        some (s1, []) ∧
      s1.g.touchpadWidth = F64.fin 500 ∧ s1.g.touchpadHeight = F64.fin 800 ∧
      s1.g.screenWidth = 1000 ∧ s1.g.screenHeight = 0 := by
  obtain ⟨s1, h, ⟨hw, -⟩, ⟨hh, -⟩, ⟨-, hsw⟩, ⟨-, hsh⟩⟩ :=
    deviceinfo_applied_stored asciiLower convAmd64 freshState
      (deviceinfoMessage "DeviceInfo" 500 800 1000 (1 / 2)) 0 0 (by decide) (by decide!)
  exact ⟨s1, h, hw.trans (by decide!), hh.trans (by decide!),
    (hsw 1000 (by decide!) (by norm_num)).1.trans (by decide!),
    (hsh (1 / 2) (by decide!) (by norm_num)).1.trans (by decide!)⟩

/-! ## Unrecognised input and the end of the loop -/

/-- C10. A decoded message whose lower-cased type is none of `deviceinfo`, `move`,
`click`, `scroll`, `zoom`, `threeswipe`, and a payload that fails to decode, each issue
no host call, leave the whole state as it was, and the loop goes on. An iteration
breaks the loop exactly on a read error, and a run ends exactly when one of its events
is a read error. -/
theorem unrecognized_harmless (lower : String → String) (conv : F64 → Int) :
    (∀ (s : State) (m : Message) (x y : Int),
      lower m.MsgType ∉ ["deviceinfo", "move", "click", "scroll", "zoom", "threeswipe"] →
      iteration lower conv s ⟨ReadResult.message m, x, y⟩ = some (s, [])) ∧
    (∀ (s : State) (x y : Int),
      iteration lower conv s ⟨ReadResult.undecodable, x, y⟩ = some (s, [])) ∧
    (∀ (s : State) (ev : Event),
      iteration lower conv s ev = none ↔ ev.read = ReadResult.readError) ∧
    (∀ (s : State) (evs : List Event),
      (wsLoop lower conv s evs).ended = true ↔
        ∃ ev ∈ evs, ev.read = ReadResult.readError) := by
  refine ⟨?_, ?_, ?_, ?_⟩
  · intro s m x y h
    simp only [List.mem_cons, List.mem_singleton, List.not_mem_nil, or_false, not_or] at h
    obtain ⟨h1, h2, h3, h4, h5, h6⟩ := h
    rw [iteration_message, dispatch, if_neg h1, if_neg h2, if_neg h3, if_neg h4, if_neg h5,
      if_neg h6]
  · intro s x y
    rfl
  · intro s ev
    cases hr : ev.read <;> simp [iteration, hr]
  · intro s evs
    exact wsLoop_ended lower conv evs s

/-- C10, on concrete inputs: a message with the empty type and one with type `Tap`
change nothing, issue nothing, and the loop goes on. -/
theorem unrecognized_harmless_witness :
    iteration asciiLower convAmd64 freshState
        ⟨ReadResult.message { MsgType := "", Dx := json 9, Dy := json 9 }, 3, 4⟩ =
      some (freshState, []) ∧
    iteration asciiLower convAmd64 freshState
        ⟨ReadResult.message { MsgType := "Tap", Button := "left" }, 3, 4⟩ =
      some (freshState, []) :=
  ⟨(unrecognized_harmless asciiLower convAmd64).1 freshState
      { MsgType := "", Dx := json 9, Dy := json 9 } 3 4 (by decide),
   (unrecognized_harmless asciiLower convAmd64).1 freshState
      { MsgType := "Tap", Button := "left" } 3 4 (by decide)⟩

end Trackpad
